import Mathlib

/-!
Verification development for the bevy-hex-sandbox map editor.

This file shallowly embeds the persistence, tileset and hex-map code of the
repository (src/persistence.rs, src/tileset.rs, src/map.rs and the tile
reordering logic of src/bin/editor_ui/panel.rs) and proves properties of it.

Modelling conventions:
- `Entity`, `TileId`, `SaveId` are `Nat` (Rust `Entity`, `usize`).
- Rust `HashMap` values are association lists; `HashMap::insert` replaces an
  existing binding in place or appends a new one (`alistInsert`).
- Rust `BTreeMap` values are key-sorted association lists (`btreeInsert`).
- A Rust panic (`unwrap`, out-of-bounds `Vec::remove`/`Vec::insert`) is
  modelled as `Option.none` / a dedicated `panicked` outcome.
- `f32` values that are only carried, never computed on (transforms, layout
  parameters), are modelled as `ℚ`.
- The bevy `World` is modelled as component tables: one list per component
  shape the persistence code queries.
-/

/-- Rust `bevy::ecs::Entity`, session-local identity. -/
abbrev Entity := Nat

/-- Rust `tileset::TileId = usize`. -/
abbrev TileId := Nat

/-- The integer inside `persistence::SaveId(usize)`. -/
abbrev SaveId := Nat

/-- `map::Location`, axial hex coordinates (also stands for `hexx::Hex`,
whose `From` conversions with `Location` are field copies). -/
structure Location where
  x : Int
  y : Int
deriving DecidableEq, Repr

/-- `tileset::TileRotation`, the closed 6-value rotation enum. -/
inductive TileRotation where
  | rotNone
  | clockwise60
  | clockwise120
  | clockwise180
  | counterClockwise120
  | counterClockwise60
deriving DecidableEq, Repr

/-- `bevy::Transform` as persisted inside `tileset::Tile`: translation,
quaternion rotation, scale.  Components are carried, never computed on. -/
structure Transform where
  translation : ℚ × ℚ × ℚ
  rotation : ℚ × ℚ × ℚ × ℚ
  scale : ℚ × ℚ × ℚ
deriving DecidableEq, Repr

/-- `Transform::IDENTITY`. -/
def Transform.IDENTITY : Transform :=
  { translation := (0, 0, 0), rotation := (0, 0, 0, 1), scale := (1, 1, 1) }

/-- Lookup in an association list with `Nat` keys (Rust `HashMap::get`):
first binding with the given key. -/
def alistLookup {β : Type} : List (Nat × β) → Nat → Option β
  | [], _ => Option.none
  | (k, v) :: rest, key => if k = key then some v else alistLookup rest key

/-- Rust `HashMap::insert`: replace the binding in place if the key is
present, append otherwise. -/
def alistInsert {β : Type} : List (Nat × β) → Nat → β → List (Nat × β)
  | [], key, v => [(key, v)]
  | (k, w) :: rest, key, v =>
      if k = key then (key, v) :: rest else (k, w) :: alistInsert rest key v

/-- Rust `BTreeMap::insert` on a key-sorted association list. -/
def btreeInsert {β : Type} : List (Nat × β) → Nat → β → List (Nat × β)
  | [], key, v => [(key, v)]
  | (k, w) :: rest, key, v =>
      if key < k then (key, v) :: (k, w) :: rest
      else if key = k then (key, v) :: rest
      else (k, w) :: btreeInsert rest key v

/-- Rust `Path::file_stem().unwrap().to_string_lossy()`: final path
component with its extension removed. -/
def fileStem (path : String) : String :=
  let fileName := (path.splitOn "/").getLastD ""
  let parts := fileName.splitOn "."
  if parts.length ≤ 1 then fileName
  else String.intercalate "." parts.dropLast

/-- `tileset::Tile`.  `scene` and `egui_texture_id` are runtime-only caches
(`#[serde(skip)]`), modelled as `Option Unit`. -/
structure Tile where
  id : TileId
  name : String
  path : String
  transform : Transform
  scene : Option Unit
  egui_texture_id : Option Unit
deriving DecidableEq, Repr

/-- The persisted image of a `Tile`: the two `#[serde(skip)]` fields are
dropped (deserialize as `None`). -/
def Tile.toPersisted (t : Tile) : Tile :=
  { t with scene := Option.none, egui_texture_id := Option.none }

/-- `tileset::Tileset`. -/
structure Tileset where
  name : String
  tiles : List (TileId × Tile)
  tile_order : List TileId
  tile_id_max : TileId
deriving DecidableEq, Repr

/-- `Tileset::new` (also `Tileset::default()` when the name is `""`). -/
def Tileset.new (name : String) : Tileset :=
  { name := name, tiles := [], tile_order := [], tile_id_max := 0 }

/-- `Tileset::add_tile`: build a `Tile` with id `tile_id_max`, push the id
onto `tile_order`, insert into `tiles`, then increment `tile_id_max`. -/
def Tileset.add_tile (ts : Tileset) (path : String) : Tileset :=
  let tile : Tile :=
    { id := ts.tile_id_max
      name := fileStem path
      path := path
      transform := Transform.IDENTITY
      scene := Option.none
      egui_texture_id := Option.none }
  { ts with
      tile_order := ts.tile_order ++ [tile.id]
      tiles := alistInsert ts.tiles tile.id tile
      tile_id_max := ts.tile_id_max + 1 }

/-- `tileset::TILESET_VERSION`. -/
def TILESET_VERSION : Nat := 1

/-- The serialized form of a `Tileset` (the map written by
`impl Serialize for Tileset`: `version`, `name`, then the tile sequence). -/
structure TilesetDoc where
  version : Nat
  name : String
  tiles : List Tile
deriving DecidableEq, Repr

/-- `impl Serialize for Tileset`: emit `TILESET_VERSION`, the name, and the
tiles as a sequence in `tile_order` (indexing `self.tiles[i]` panics —
`Option.none` — if an id of `tile_order` is missing from `tiles`). -/
def tilesetSerialize (ts : Tileset) : Option TilesetDoc := do
  let tiles ← ts.tile_order.mapM
    (fun i => (alistLookup ts.tiles i).map Tile.toPersisted)
  pure { version := TILESET_VERSION, name := ts.name, tiles := tiles }

/-- `TilesetVisitor::visit_map`: check the version exactly, read the name,
then rebuild `tiles` and `tile_order` from the decoded sequence in sequence
order.  Starts from `Tileset::default()`, so `tile_id_max` stays `0`. -/
def tilesetDeserialize (doc : TilesetDoc) : Except String Tileset :=
  if doc.version ≠ TILESET_VERSION then
    Except.error "unsupported tileset version"
  else
    Except.ok (doc.tiles.foldl
      (fun ts tile =>
        { ts with
            tile_order := ts.tile_order ++ [tile.id]
            tiles := alistInsert ts.tiles tile.id tile })
      { Tileset.new "" with name := doc.name })

/-- The loop body of the tile-reordering scan of `TilesetTiles::draw`
(panel.rs): walk `tile_order` with its index; a selected tile is recorded
as `(tile_id, index)` in `moved`, and `insert_index` is decremented when
the current index is below the (already decremented) `insert_index`. -/
def reorderScanGo (sel : List TileId) :
    List (TileId × Nat) → Nat → Nat → List TileId → List (TileId × Nat) × Nat
  | moved, _, ins, [] => (moved, ins)
  | moved, idx, ins, t :: rest =>
    if t ∈ sel then
      reorderScanGo sel (moved ++ [(t, idx)]) (idx + 1)
        (if idx < ins then ins - 1 else ins) rest
    else reorderScanGo sel moved (idx + 1) ins rest

/-- The full scan: start from an empty `moved` list, index `0` and
`insert_index = dropIndex`; returns the `moved` list (ascending index
order) and the final `insert_index`. -/
def reorderScan (sel : List TileId) (dropIndex : Nat) (order : List TileId) :
    List (TileId × Nat) × Nat :=
  reorderScanGo sel [] 0 dropIndex order

/-- Rust `Vec::remove(i)`: panics (`Option.none`) when `i` is out of
bounds. -/
def vecRemove {α : Type} (l : List α) (i : Nat) : Option (List α) :=
  if i < l.length then some (l.eraseIdx i) else Option.none

/-- Rust `Vec::insert(i, a)`: panics (`Option.none`) when `i > len`. -/
def vecInsert {α : Type} (l : List α) (i : Nat) (a : α) : Option (List α) :=
  if i ≤ l.length then some (l.insertIdx i a) else Option.none

/-- The drop branch of `TilesetTiles::draw`: scan `tile_order` building
`moved` and the adjusted `insert_index`, reverse `moved`, remove the moved
entries by index (descending), then insert the moved tile ids one by one at
`insert_index`. -/
def reorderTiles (sel : List TileId) (dropIndex : Nat) (order : List TileId) :
    Option (List TileId) := do
  let scanned := reorderScan sel dropIndex order
  let movedRev := scanned.1.reverse
  let afterRemove ← movedRev.foldlM (fun acc p => vecRemove acc p.2) order
  movedRev.foldlM (fun acc p => vecInsert acc scanned.2 p.1) afterRemove

/-- `hexx::HexLayout`: grid configuration (orientation, origin, cell size,
axis inversion flags).  Only carried by the codec, never computed on. -/
structure HexLayout where
  isPointy : Bool
  origin : ℚ × ℚ
  hex_size : ℚ × ℚ
  invert_x : Bool
  invert_y : Bool
deriving DecidableEq, Repr

/-- A default layout (`HexLayout::default()`), used for concrete inputs. -/
def HexLayout.default : HexLayout :=
  { isPointy := true, origin := (0, 0), hex_size := (1, 1),
    invert_x := false, invert_y := false }

/-- The two hex-grid conversion functions `hexx` derives from a
`HexLayout` (`hex_to_world_pos`, `world_pos_to_hex`).  `hexx` is an
external crate, so the pair is kept abstract: `map::Map::snap_to_grid` and
`map::Map::translation` are proved against an arbitrary interpretation. -/
structure HexLayoutFns where
  hex_to_world_pos : Location → ℚ × ℚ
  world_pos_to_hex : ℚ × ℚ → Location

/-- `map::Map::snap_to_grid`: convert `pos.xz()` to the nearest hex, then
back to a world position; return `Vec3::new(snapped.x, pos.y, snapped.y)`
together with the hex as a `Location`. -/
def Map.snap_to_grid (fns : HexLayoutFns) (pos : ℚ × ℚ × ℚ) :
    (ℚ × ℚ × ℚ) × Location :=
  let hex := fns.world_pos_to_hex (pos.1, pos.2.2)
  let snapped := fns.hex_to_world_pos hex
  ((snapped.1, pos.2.1, snapped.2), hex)

/-- `map::Map::translation`: `Vec3::new(pos.x, 0.0, pos.y)` for the world
position of the given location. -/
def Map.translation (fns : HexLayoutFns) (location : Location) : ℚ × ℚ × ℚ :=
  let p := fns.hex_to_world_pos location
  (p.1, 0, p.2)

/-- A tileset entity: `(Entity, Parent)` with a `tileset::Tileset`
component. -/
structure TilesetEnt where
  eid : Entity
  parent : Entity
  ts : Tileset
deriving DecidableEq, Repr

/-- A placed-tile entity: `map::Location`, `tileset::TileRef`
(`tileset` entity + `tile` id) and `tileset::TileTransform` components. -/
structure TileEnt where
  eid : Entity
  location : Location
  tileset_ref : Entity
  tile_id : TileId
  rotation : TileRotation
deriving DecidableEq, Repr

/-- A layer entity: `map::Layer` component (`name` plus the
`Location → (Entity, TileRef)` index `tiles`), its `Parent`, and its
`Children` entities. -/
structure LayerEnt where
  eid : Entity
  parent : Entity
  name : String
  tiles : List (Location × Entity × Entity × TileId)
  children : List Entity
deriving DecidableEq, Repr

/-- The bevy `World`, restricted to the component tables the persistence
code queries.  `maps` holds `map::Map` components (their `layout` field),
`save_ids` the `SaveId` components.  Query iteration order is list order. -/
structure World where
  next_entity : Entity
  entities : List Entity
  maps : List (Entity × HexLayout)
  save_ids : List (Entity × SaveId)
  tilesets : List TilesetEnt
  layers : List LayerEnt
  tiles : List TileEnt
deriving DecidableEq, Repr

/-- `WorldSaveIdExt::save_id_next`: max of all assigned `SaveId`s plus one,
or `0` when none is assigned — a query over the current world, not a
stored counter. -/
def World.save_id_next (w : World) : SaveId :=
  match (w.save_ids.map Prod.snd).max? with
  | some m => m + 1
  | Option.none => 0

/-- The loop body of `WorldSaveIdExt::assign_save_ids`: for each entity,
fail on an unknown entity, reuse an already-attached `SaveId`, otherwise
attach the running `next_id` and increment it; record every pair in the
output map. -/
def assignSaveIdsGo :
    World → SaveId → List (Entity × SaveId) → List Entity →
    Except String (World × List (Entity × SaveId))
  | w, _, emap, [] => Except.ok (w, emap)
  | w, next, emap, e :: rest =>
    if e ∈ w.entities then
      match alistLookup w.save_ids e with
      | some i => assignSaveIdsGo w next (alistInsert emap e i) rest
      | Option.none =>
          assignSaveIdsGo { w with save_ids := w.save_ids ++ [(e, next)] }
            (next + 1) (alistInsert emap e next) rest
    else Except.error "unknown entity"

/-- `WorldSaveIdExt::assign_save_ids`: seed `next_id` from
`save_id_next`, then run the assignment loop. -/
def World.assign_save_ids (w : World) (es : List Entity) :
    Except String (World × List (Entity × SaveId)) :=
  assignSaveIdsGo w w.save_id_next [] es

/-- Save-file representation of a placed tile (`persistence::Tile`). -/
structure MapTileDoc where
  location : Location
  tileset : SaveId
  tile_id : TileId
  rotation : TileRotation
deriving DecidableEq, Repr

/-- Save-file representation of a layer (`persistence::Layer`). -/
structure MapLayerDoc where
  name : String
  tiles : List MapTileDoc
deriving DecidableEq, Repr

/-- `persistence::MAP_FORMAT_VERSION`. -/
def MAP_FORMAT_VERSION : Nat := 1

/-- `persistence::MapFormat`: the serialized map root.  `tilesets` is a
`BTreeMap` (key-sorted list); `entity_map` is the `#[serde(skip)]`
construction-only field. -/
structure MapFormat where
  version : Nat
  layout : HexLayout
  tilesets : List (SaveId × Tileset)
  layers : List MapLayerDoc
  entity_map : List (Entity × SaveId)
deriving DecidableEq, Repr

/-- The tileset children of `root` in query order
(`query_filtered::<(Entity, &Parent), With<Tileset>>` + parent filter). -/
def rootTilesets (w : World) (root : Entity) : List Entity :=
  (w.tilesets.filter (fun t => t.parent = root)).map (fun t => t.eid)

/-- `query::<&Tileset>().get(world, e)`: the `Tileset` component of `e`. -/
def lookupTileset (w : World) (e : Entity) : Option Tileset :=
  (w.tilesets.find? (fun t => t.eid = e)).map (fun t => t.ts)

/-- `query::<(&Location, &TileRef, &TileTransform)>().get(world, e)`. -/
def lookupTile (w : World) (e : Entity) : Option TileEnt :=
  w.tiles.find? (fun t => t.eid = e)

/-- One step of the `add_tilesets` loop: look up the tileset's assigned
`SaveId` and its component, and insert the clone into the `BTreeMap`. -/
def addTilesetStep (w1 : World) (emap : List (Entity × SaveId))
    (acc : MapFormat) (e : Entity) : Except String MapFormat :=
  match alistLookup emap e with
  | Option.none => Except.error "failed to get SaveId for Tileset"
  | some i =>
    match lookupTileset w1 e with
    | Option.none => Except.error "no Tileset component"
    | some ts => Except.ok { acc with tilesets := btreeInsert acc.tilesets i ts }

/-- `MapFormat::add_tilesets`: batch-assign `SaveId`s to the tileset
children of `root`, then insert each tileset's clone into the `BTreeMap`
keyed by its assigned id. -/
def MapFormat.add_tilesets (m : MapFormat) (w : World) (root : Entity) :
    Except String (World × MapFormat) := do
  let tsEnts := rootTilesets w root
  let (w1, emap) ← w.assign_save_ids tsEnts
  let m1 ← tsEnts.foldlM (addTilesetStep w1 emap) { m with entity_map := emap }
  Except.ok (w1, m1)

/-- One step of the per-layer tile walk of `add_layers`: a child that is
not a placed tile is skipped (`let Ok(..) else continue`); a tile whose
tileset entity is missing from `entity_map` aborts the encode. -/
def encodeTileStep (w : World) (emap : List (Entity × SaveId))
    (acc : List MapTileDoc) (c : Entity) : Except String (List MapTileDoc) :=
  match lookupTile w c with
  | Option.none => Except.ok acc
  | some t =>
    match alistLookup emap t.tileset_ref with
    | Option.none => Except.error "tileset SaveId not found"
    | some sid =>
        Except.ok (acc ++ [{ location := t.location, tileset := sid,
                             tile_id := t.tile_id, rotation := t.rotation :
                             MapTileDoc }])

/-- The inner loop of `MapFormat::add_layers` for one layer. -/
def encodeLayer (w : World) (emap : List (Entity × SaveId)) (l : LayerEnt) :
    Except String MapLayerDoc := do
  let tiles ← l.children.foldlM (encodeTileStep w emap) []
  Except.ok { name := l.name, tiles := tiles }

/-- `MapFormat::add_layers`: encode every layer child of `root` (query
order); the query requires the `Children` component. -/
def MapFormat.add_layers (m : MapFormat) (w : World) (root : Entity) :
    Except String MapFormat := do
  let docs ← (w.layers.filter (fun l => l.parent = root)).mapM
    (encodeLayer w m.entity_map)
  Except.ok { m with layers := m.layers ++ docs }

/-- `MapFormat::try_new`: read the root's `map::Map` layout, then
`add_tilesets` and `add_layers`.  Returns the world as mutated by the
save-id assignment together with the document. -/
def MapFormat.try_new (w : World) (root : Entity) :
    Except String (World × MapFormat) := do
  match alistLookup w.maps root with
  | Option.none => Except.error "failed to get Map component for map root"
  | some layout => do
    let m : MapFormat :=
      { version := MAP_FORMAT_VERSION, layout := layout,
        tilesets := [], layers := [], entity_map := [] }
    let (w1, m1) ← m.add_tilesets w root
    let m2 ← m1.add_layers w1 root
    Except.ok (w1, m2)

/-- Spawn a tileset entity under `parent` (`spawn((Name, tileset.clone()))`
followed by `add_child`). -/
def World.spawnTileset (w : World) (parent : Entity) (ts : Tileset) :
    World × Entity :=
  let e := w.next_entity
  ({ w with
      next_entity := e + 1
      entities := w.entities ++ [e]
      tilesets := w.tilesets ++ [{ eid := e, parent := parent, ts := ts }] }, e)

/-- Spawn a layer entity under `parent` with a fresh `map::Layer`
component built by `From<&persistence::Layer>`: same name, empty `tiles`
index. -/
def World.spawnLayer (w : World) (parent : Entity) (name : String) :
    World × Entity :=
  let e := w.next_entity
  ({ w with
      next_entity := e + 1
      entities := w.entities ++ [e]
      layers := w.layers ++
        [{ eid := e, parent := parent, name := name, tiles := [], children := [] }] }, e)

/-- Spawn a placed-tile entity with the document's location, the resolved
tileset entity, tile id and rotation. -/
def World.spawnTile (w : World) (t : MapTileDoc) (tilesetEnt : Entity) :
    World × Entity :=
  let e := w.next_entity
  ({ w with
      next_entity := e + 1
      entities := w.entities ++ [e]
      tiles := w.tiles ++
        [{ eid := e, location := t.location, tileset_ref := tilesetEnt,
           tile_id := t.tile_id, rotation := t.rotation }] }, e)

/-- `push_children`: append the given entities to a layer's `Children`. -/
def World.pushChildren (w : World) (layer : Entity) (cs : List Entity) : World :=
  { w with
      layers := w.layers.map
        (fun l => if l.eid = layer then { l with children := l.children ++ cs } else l) }

/-- The tileset-restoring loop of `MapFormat::try_spawn`: spawn each
document tileset (BTreeMap order) as a child of `root` and record
`SaveId → Entity`. -/
def spawnDocTilesets (root : Entity) :
    World → List (SaveId × Entity) → List (SaveId × Tileset) →
    World × List (SaveId × Entity)
  | w, emap, [] => (w, emap)
  | w, emap, (i, ts) :: rest =>
    let (w1, e) := w.spawnTileset root ts
    spawnDocTilesets root w1 (alistInsert emap i e) rest

/-- The tile loop of `MapFormat::try_spawn` for one layer:
`entity_map.get(&tile.tileset).unwrap()` — an unresolved tileset ref
panics (`Option.none`); otherwise the tile entity is spawned.  Returns the
spawned tile entities in order. -/
def spawnDocTiles (emap : List (SaveId × Entity)) :
    World → List MapTileDoc → Option (World × List Entity)
  | w, [] => some (w, [])
  | w, t :: rest =>
    match alistLookup emap t.tileset with
    | Option.none => Option.none
    | some tsEnt =>
      let (w1, e) := w.spawnTile t tsEnt
      (spawnDocTiles emap w1 rest).map (fun p => (p.1, e :: p.2))

/-- The layer-restoring loop of `MapFormat::try_spawn`: spawn the layer
entity, spawn its tiles, then `push_children`. -/
def spawnDocLayers (root : Entity) (emap : List (SaveId × Entity)) :
    World → List MapLayerDoc → Option World
  | w, [] => some w
  | w, l :: rest =>
    let (w1, le) := w.spawnLayer root l.name
    match spawnDocTiles emap w1 l.tiles with
    | Option.none => Option.none
    | some (w2, tileEnts) =>
        spawnDocLayers root emap (w2.pushChildren le tileEnts) rest

/-- Outcome of `MapFormat::try_spawn`: a Rust panic, an `Err` return (the
commands queued so far — here none — are kept, hence the world), or
success. -/
inductive SpawnOutcome where
  | panicked
  | fail (msg : String) (w : World)
  | ok (w : World)
deriving DecidableEq, Repr

/-- `MapFormat::try_spawn`: bail on a version mismatch before spawning
anything; otherwise restore tilesets, then layers with their tiles, then
insert the `map::Map` component on `root`. -/
def MapFormat.try_spawn (m : MapFormat) (w : World) (root : Entity) :
    SpawnOutcome :=
  if m.version ≠ MAP_FORMAT_VERSION then
    SpawnOutcome.fail "unsupported map version" w
  else
    let (w1, emap) := spawnDocTilesets root w [] m.tilesets
    match spawnDocLayers root emap w1 m.layers with
    | Option.none => SpawnOutcome.panicked
    | some w2 => SpawnOutcome.ok { w2 with maps := alistInsert w2.maps root m.layout }

/-- A fresh decode target: a world holding only the root entity `0`
(the `MapImporter` entity the map is spawned into). -/
def freshWorld : World :=
  { next_entity := 1, entities := [0], maps := [], save_ids := [],
    tilesets := [], layers := [], tiles := [] }

/-! ### Association-list lemmas -/

theorem alistLookup_append_some {β : Type} {l r : List (Nat × β)} {k : Nat}
    {v : β} (h : alistLookup l k = some v) : alistLookup (l ++ r) k = some v := by
  induction l with
  | nil => simp [alistLookup] at h
  | cons p rest ih =>
    rw [alistLookup] at h
    rw [List.cons_append, alistLookup]
    by_cases hpk : p.1 = k
    · rw [if_pos hpk] at h ⊢
      exact h
    · rw [if_neg hpk] at h ⊢
      exact ih h

theorem alistLookup_append_none {β : Type} {l r : List (Nat × β)} {k : Nat}
    (h : alistLookup l k = Option.none) :
    alistLookup (l ++ r) k = alistLookup r k := by
  induction l with
  | nil => simp
  | cons p rest ih =>
    rw [alistLookup] at h
    rw [List.cons_append, alistLookup]
    by_cases hpk : p.1 = k
    · rw [if_pos hpk] at h
      exact absurd h (by simp)
    · rw [if_neg hpk] at h ⊢
      exact ih h

theorem alistLookup_mem {β : Type} {l : List (Nat × β)} {k : Nat} {v : β}
    (h : alistLookup l k = some v) : (k, v) ∈ l := by
  induction l with
  | nil => simp [alistLookup] at h
  | cons p rest ih =>
    rw [alistLookup] at h
    split at h
    · rename_i heq
      obtain rfl := Option.some_injective _ h
      simp [← heq]
    · exact List.mem_cons_of_mem _ (ih h)

theorem alistLookup_isSome_iff {β : Type} {l : List (Nat × β)} {k : Nat} :
    (alistLookup l k).isSome ↔ k ∈ l.map Prod.fst := by
  induction l with
  | nil => simp [alistLookup]
  | cons p rest ih =>
    rw [alistLookup]
    by_cases h : p.1 = k
    · simp [h]
    · simp [h, ih, Ne.symm h]

theorem alistInsert_lookup_self {β : Type} (l : List (Nat × β)) (k : Nat)
    (v : β) : alistLookup (alistInsert l k v) k = some v := by
  induction l with
  | nil => simp [alistInsert, alistLookup]
  | cons p rest ih =>
    rw [alistInsert]
    split
    · simp [alistLookup]
    · rw [alistLookup]
      simp [*]

theorem alistInsert_lookup_ne {β : Type} (l : List (Nat × β)) (k k' : Nat)
    (v : β) (h : k' ≠ k) :
    alistLookup (alistInsert l k v) k' = alistLookup l k' := by
  induction l with
  | nil => simp [alistInsert, alistLookup, Ne.symm h]
  | cons p rest ih =>
    rw [alistInsert]
    split
    · rename_i heq
      rw [alistLookup, alistLookup, heq]
      simp [Ne.symm h]
    · rw [alistLookup, alistLookup, ih]

theorem alistLookup_foldl_insert_fun {β : Type} (f : Nat → β) :
    ∀ (es : List Nat) (m0 : List (Nat × β)) (k : Nat),
      alistLookup (es.foldl (fun m e => alistInsert m e (f e)) m0) k =
        if k ∈ es then some (f k) else alistLookup m0 k
  | [], m0, k => by simp
  | e :: rest, m0, k => by
    rw [List.foldl_cons, alistLookup_foldl_insert_fun f rest]
    by_cases hmem : k ∈ rest
    · simp [hmem]
    · by_cases hk : k = e
      · subst hk
        simp [hmem, alistInsert_lookup_self]
      · simp [hmem, hk, alistInsert_lookup_ne _ _ _ _ hk]

/-! ### `save_id_next` lemmas -/

theorem save_ids_lt_next (w : World) : ∀ p ∈ w.save_ids, p.2 < w.save_id_next := by
  intro p hp
  have hmem : p.2 ∈ w.save_ids.map Prod.snd := List.mem_map_of_mem _ hp
  cases hmax : (w.save_ids.map Prod.snd).max? with
  | none =>
    rw [List.max?_eq_none_iff] at hmax
    simp [hmax] at hmem
  | some m =>
    have hle := (List.max?_eq_some_iff'.1 hmax).2 _ hmem
    have heq : w.save_id_next = m + 1 := by
      unfold World.save_id_next
      rw [hmax]
    rw [heq]
    exact Nat.lt_succ_of_le hle

/-- C4: `save_id_next` is strictly above every currently assigned id (so
ids assigned outside the normal path are respected), is `0` when no id is
assigned, and otherwise is exactly one more than some assigned id (hence
`max + 1`).  It is a pure query of the current world state — `World` holds
no allocation counter. -/
theorem save_id_next_spec (w : World) :
    (∀ p ∈ w.save_ids, p.2 < w.save_id_next) ∧
    (w.save_ids = [] → w.save_id_next = 0) ∧
    (w.save_ids ≠ [] → ∃ p ∈ w.save_ids, w.save_id_next = p.2 + 1) := by
  refine ⟨save_ids_lt_next w, ?_, ?_⟩
  · intro h
    simp [World.save_id_next, h]
  · intro h
    cases hmax : (w.save_ids.map Prod.snd).max? with
    | none =>
      rw [List.max?_eq_none_iff, List.map_eq_nil_iff] at hmax
      exact absurd hmax h
    | some m =>
      have hm := (List.max?_eq_some_iff'.1 hmax).1
      obtain ⟨p, hp, hpm⟩ := List.mem_map.1 hm
      refine ⟨p, hp, ?_⟩
      unfold World.save_id_next
      rw [hmax, hpm]

/-- Example world for C4: two entities carrying pre-existing ids 3 and 7. -/
def exWorld37 : World :=
  { next_entity := 2, entities := [0, 1], maps := [],
    save_ids := [(0, 3), (1, 7)], tilesets := [], layers := [], tiles := [] }

/-- `exWorld37` with a third entity that has no id yet. -/
def exWorld37b : World :=
  { exWorld37 with entities := [0, 1, 2], next_entity := 3 }

/-- `exWorld37b` after entity `2` has been assigned the id `8`. -/
def exWorld37c : World :=
  { exWorld37b with save_ids := [(0, 3), (1, 7), (2, 8)] }

/-- C4 witness: applied to the `{3, 7}` world the next id is `8` (and a
fresh entity batch-assigned there receives `8`); on the empty world the
next id is `0` and the first allocated id is `0`. -/
theorem save_id_next_spec_witness :
    ((∀ p ∈ exWorld37.save_ids, p.2 < exWorld37.save_id_next) ∧
      (exWorld37.save_ids = [] → exWorld37.save_id_next = 0) ∧
      (exWorld37.save_ids ≠ [] →
        ∃ p ∈ exWorld37.save_ids, exWorld37.save_id_next = p.2 + 1)) ∧
    exWorld37.save_id_next = 8 ∧
    freshWorld.save_id_next = 0 ∧
    exWorld37b.assign_save_ids [2] = Except.ok (exWorld37c, [(2, 8)]) ∧
    freshWorld.assign_save_ids [0] =
      Except.ok ({ freshWorld with save_ids := [(0, 0)] }, [(0, 0)]) :=
  ⟨save_id_next_spec exWorld37, by decide, by decide, by rfl, by rfl⟩

/-- C5: decoding a map document whose `version` differs from
`MAP_FORMAT_VERSION` fails before a single tileset, layer or tile entity
is spawned (the returned world is untouched), and deserializing a tileset
document whose `version` differs from `TILESET_VERSION` is a hard error;
neither path has a migration fallback. -/
theorem version_mismatch_hard_failure (m : MapFormat) (w : World)
    (root : Entity) (doc : TilesetDoc)
    (h : m.version ≠ MAP_FORMAT_VERSION) (h2 : doc.version ≠ TILESET_VERSION) :
    m.try_spawn w root = SpawnOutcome.fail "unsupported map version" w ∧
    tilesetDeserialize doc = Except.error "unsupported tileset version" := by
  constructor
  · unfold MapFormat.try_spawn
    rw [if_pos h]
  · unfold tilesetDeserialize
    rw [if_pos h2]

/-- Concrete map document with `version = 999` over an empty content. -/
def exDoc999 : MapFormat :=
  { version := 999, layout := HexLayout.default, tilesets := [],
    layers := [], entity_map := [] }

/-- Concrete tileset document with `version = 999`. -/
def exTilesetDoc999 : TilesetDoc := { version := 999, name := "t", tiles := [] }

/-- C5 witness: the `version = 999` documents are rejected with the
version-mismatch errors and the world is left untouched. -/
theorem version_mismatch_hard_failure_witness :
    exDoc999.try_spawn freshWorld 0 =
      SpawnOutcome.fail "unsupported map version" freshWorld ∧
    tilesetDeserialize exTilesetDoc999 =
      Except.error "unsupported tileset version" :=
  version_mismatch_hard_failure exDoc999 freshWorld 0 exTilesetDoc999
    (by decide) (by decide)

/-- C8 (amended): `Map::translation` on the `Location` returned by
`Map::snap_to_grid` reproduces the snapped `x` and `z` coordinates exactly
(both are `hex_to_world_pos` of the same hex), but returns `y = 0` while
`snap_to_grid` carries the input's `y` through — so the full snapped
position is reproduced exactly iff the input position has `y = 0`. -/
theorem translation_snap_to_grid (fns : HexLayoutFns) (pos : ℚ × ℚ × ℚ) :
    Map.translation fns (Map.snap_to_grid fns pos).2 =
      ((Map.snap_to_grid fns pos).1.1, 0, (Map.snap_to_grid fns pos).1.2.2) ∧
    (pos.2.1 = 0 →
      Map.translation fns (Map.snap_to_grid fns pos).2 =
        (Map.snap_to_grid fns pos).1) := by
  refine ⟨rfl, fun h => ?_⟩
  unfold Map.translation Map.snap_to_grid
  simp [h]

/-- A concrete hex-layout interpretation for the C8 counterexample (the
`y` discrepancy below is independent of the interpretation). -/
def exFns : HexLayoutFns :=
  { hex_to_world_pos := fun l => ((l.x : ℚ), (l.y : ℚ))
    world_pos_to_hex := fun p => { x := ⌊p.1⌋, y := ⌊p.2⌋ } }

/-- C8 counterexample: for the input position `(0, 1, 0)` (above the
ground plane), `Map::translation` of the returned `Location` is
`(0, 0, 0)`, which differs from the returned snapped position
`(0, 1, 0)` — the claimed exact reproduction fails. -/
theorem translation_snap_to_grid_counterexample :
    Map.translation exFns (Map.snap_to_grid exFns (0, 1, 0)).2 ≠
      (Map.snap_to_grid exFns (0, 1, 0)).1 := by
  decide

/-- C8 witness: on the ground plane (`y = 0`) the reproduction is exact. -/
theorem translation_snap_to_grid_witness :
    Map.translation exFns (Map.snap_to_grid exFns (3, 0, 5)).2 =
      ((Map.snap_to_grid exFns (3, 0, 5)).1.1, 0,
        (Map.snap_to_grid exFns (3, 0, 5)).1.2.2) ∧
    Map.translation exFns (Map.snap_to_grid exFns (3, 0, 5)).2 =
      (Map.snap_to_grid exFns (3, 0, 5)).1 :=
  ⟨(translation_snap_to_grid exFns (3, 0, 5)).1,
    (translation_snap_to_grid exFns (3, 0, 5)).2 rfl⟩

/-! ### C7: the `tile_order` permutation invariant and `add_tile` -/

/-- The C7 invariant: `tile_order` is a duplicate-free permutation of the
keys of `tiles`. -/
def Tileset.orderInvariant (ts : Tileset) : Prop :=
  ts.tile_order.Perm (ts.tiles.map Prod.fst) ∧ ts.tile_order.Nodup

/-- A concrete tileset: one tile added to a fresh tileset. -/
def exTilesetPine : Tileset := (Tileset.new "trees").add_tile "models/pine.glb"

/-- C7 (code bug): `add_tile` on a deserialized tileset violates the
permutation invariant.  `TilesetVisitor::visit_map` starts from
`Tileset::default()` and never restores `tile_id_max`, so after a
serialize/deserialize round trip of a one-tile tileset the next
`add_tile` reuses id `0`: `tile_order` becomes `[0, 0]` (a duplicate) and
the new tile overwrites tile `0` in the mapping, losing it.  The starting
tileset and its decoded image satisfy the invariant; the decoded image
plus `add_tile` does not. -/
theorem add_tile_after_deserialize_breaks_invariant :
    ∃ doc ts1,
      tilesetSerialize exTilesetPine = some doc ∧
      tilesetDeserialize doc = Except.ok ts1 ∧
      exTilesetPine.orderInvariant ∧
      ts1.orderInvariant ∧
      ts1.tile_id_max = 0 ∧
      (ts1.add_tile "models/oak.glb").tile_order = [0, 0] ∧
      ¬ (ts1.add_tile "models/oak.glb").orderInvariant ∧
      ((ts1.add_tile "models/oak.glb").tiles.map Prod.fst) = [0] := by
  refine ⟨_, _, rfl, rfl, ?_, ?_, rfl, rfl, ?_, rfl⟩
  · exact ⟨by decide, by decide⟩
  · exact ⟨by decide, by decide⟩
  · intro hinv
    exact absurd hinv.2 (by decide)

/-- `alistInsert` with a fresh key appends the binding. -/
theorem alistInsert_append_of_not_mem {β : Type} :
    ∀ {l : List (Nat × β)} {k : Nat}, k ∉ l.map Prod.fst → ∀ (v : β),
      alistInsert l k v = l ++ [(k, v)]
  | [], _, _, _ => rfl
  | p :: rest, k, h, v => by
    simp only [List.map_cons, List.mem_cons, not_or] at h
    rw [alistInsert, if_neg (fun heq => h.1 heq.symm), List.cons_append,
      alistInsert_append_of_not_mem h.2 v]

/-- The invariant-preservation part of C7 that does hold: `add_tile` on a
tileset whose ids are all below `tile_id_max` (true of every tileset built
through `Tileset::new`/`add_tile`) preserves the invariant. -/
theorem add_tile_preserves_invariant (ts : Tileset) (path : String)
    (hinv : ts.orderInvariant)
    (hmax : ∀ i ∈ ts.tile_order, i < ts.tile_id_max) :
    (ts.add_tile path).orderInvariant ∧
    (∀ i ∈ (ts.add_tile path).tile_order, i < (ts.add_tile path).tile_id_max) := by
  have hnotmem : ts.tile_id_max ∉ ts.tile_order := by
    intro hmem
    exact absurd (hmax _ hmem) (Nat.lt_irrefl _)
  have hnotkey : ts.tile_id_max ∉ ts.tiles.map Prod.fst := by
    intro hmem
    exact hnotmem (hinv.1.mem_iff.2 hmem)
  have hins : ∀ (tile : Tile),
      alistInsert ts.tiles ts.tile_id_max tile = ts.tiles ++ [(ts.tile_id_max, tile)] :=
    alistInsert_append_of_not_mem hnotkey
  constructor
  · constructor
    · show (ts.tile_order ++ [ts.tile_id_max]).Perm
        ((alistInsert ts.tiles ts.tile_id_max _).map Prod.fst)
      rw [hins]
      simp only [List.map_append, List.map_cons, List.map_nil]
      exact hinv.1.append (List.Perm.refl _)
    · show (ts.tile_order ++ [ts.tile_id_max]).Nodup
      rw [List.nodup_append]
      exact ⟨hinv.2, List.nodup_singleton _, by simpa using hnotmem⟩
  · intro i hi
    show i < ts.tile_id_max + 1
    rcases List.mem_append.1 hi with h | h
    · exact Nat.lt_succ_of_lt (hmax _ h)
    · simp only [List.mem_singleton] at h
      exact h ▸ Nat.lt_succ_self _

/-! ### C6: tileset serialization contract -/

/-- An arbitrary inhabitant of `Tile`, used only as a `getD` default in
proofs. -/
def defaultTile : Tile :=
  { id := 0, name := "", path := "", transform := Transform.IDENTITY,
    scene := Option.none, egui_texture_id := Option.none }

/-- Behaviour of the tile-sequence construction of
`impl Serialize for Tileset` on a `tile_order` whose ids all resolve to
tiles carrying their own key as `id`. -/
theorem serializeTiles_spec (tiles : List (TileId × Tile)) :
    ∀ (is : List TileId),
      (∀ i ∈ is, ∃ t, alistLookup tiles i = some t ∧ t.id = i) →
      ∃ out,
        is.mapM (fun i => (alistLookup tiles i).map Tile.toPersisted) = some out ∧
        out.map Tile.id = is ∧
        (∀ t ∈ out, t = ((alistLookup tiles t.id).map Tile.toPersisted).getD defaultTile)
  | [], _ => ⟨[], rfl, rfl, by simp⟩
  | i :: rest, h => by
    obtain ⟨t, ht, hid⟩ := h i (List.mem_cons_self i rest)
    obtain ⟨out, hout, hmap, hmem⟩ :=
      serializeTiles_spec tiles rest (fun j hj => h j (List.mem_cons_of_mem _ hj))
    refine ⟨t.toPersisted :: out, ?_, ?_, ?_⟩
    · rw [List.mapM_cons, ht, hout]
      rfl
    · rw [List.map_cons, hmap]
      show t.toPersisted.id :: rest = i :: rest
      rw [show t.toPersisted.id = t.id from rfl, hid]
    · intro u hu
      rcases List.mem_cons.1 hu with rfl | hu
      · have hpid : t.toPersisted.id = i := hid
        rw [hpid, ht]
        rfl
      · exact hmem u hu

/-- The tile-restoring fold of `TilesetVisitor::visit_map`, split into its
effect on `tile_order` and on `tiles`. -/
theorem deserializeFold_spec :
    ∀ (tiles : List Tile) (ts0 : Tileset),
      tiles.foldl
        (fun ts tile =>
          { ts with
              tile_order := ts.tile_order ++ [tile.id]
              tiles := alistInsert ts.tiles tile.id tile }) ts0 =
      { ts0 with
          tile_order := ts0.tile_order ++ tiles.map Tile.id
          tiles := tiles.foldl (fun m t => alistInsert m t.id t) ts0.tiles }
  | [], ts0 => by simp
  | t :: rest, ts0 => by
    rw [List.foldl_cons, deserializeFold_spec rest, List.foldl_cons]
    simp

/-- Lookup after folding `alistInsert` over a tile sequence whose elements
are determined by their ids. -/
theorem alistLookup_foldl_insert_tiles (f : Nat → Tile) :
    ∀ (tiles : List Tile) (m0 : List (Nat × Tile)) (k : Nat),
      (∀ t ∈ tiles, t = f t.id) →
      alistLookup (tiles.foldl (fun m t => alistInsert m t.id t) m0) k =
        if k ∈ tiles.map Tile.id then some (f k) else alistLookup m0 k
  | [], m0, k, _ => by simp
  | t :: rest, m0, k, h => by
    have ht := h t (List.mem_cons_self t rest)
    rw [List.foldl_cons,
      alistLookup_foldl_insert_tiles f rest _ k (fun u hu => h u (List.mem_cons_of_mem _ hu))]
    by_cases hmem : k ∈ rest.map Tile.id
    · simp [hmem]
    · by_cases hk : k = t.id
      · subst hk
        simp [hmem, alistInsert_lookup_self, ← ht]
      · simp [hmem, hk, alistInsert_lookup_ne _ _ _ _ hk]

/-- C6: serializing a tileset emits the version tag, the name, and the
tiles as a sequence following `tile_order` (not mapping order);
deserializing rebuilds `tile_order` and the `tiles` mapping from that
sequence in sequence order, so the round trip preserves the name, the
exact tile order, and every tile's persisted fields.  The hypothesis is
the tileset well-formedness `add_tile` and deserialization maintain:
every id in `tile_order` resolves to a tile whose `id` field is that
key. -/
theorem tileset_serde_roundtrip (ts : Tileset)
    (hinv : ∀ i ∈ ts.tile_order, ∃ t, alistLookup ts.tiles i = some t ∧ t.id = i) :
    ∃ doc ts1,
      tilesetSerialize ts = some doc ∧
      doc.version = TILESET_VERSION ∧
      doc.name = ts.name ∧
      doc.tiles.map Tile.id = ts.tile_order ∧
      tilesetDeserialize doc = Except.ok ts1 ∧
      ts1.name = ts.name ∧
      ts1.tile_order = ts.tile_order ∧
      (∀ i ∈ ts.tile_order,
        alistLookup ts1.tiles i = (alistLookup ts.tiles i).map Tile.toPersisted) := by
  obtain ⟨out, hout, hmap, hmem⟩ := serializeTiles_spec ts.tiles ts.tile_order hinv
  refine ⟨{ version := TILESET_VERSION, name := ts.name, tiles := out },
    { name := ts.name, tiles := out.foldl (fun m t => alistInsert m t.id t) [],
      tile_order := out.map Tile.id, tile_id_max := 0 },
    ?_, rfl, rfl, hmap, ?_, rfl, hmap, ?_⟩
  · unfold tilesetSerialize
    rw [hout]
    rfl
  · unfold tilesetDeserialize
    rw [if_neg (fun h => h rfl), deserializeFold_spec]
    rfl
  · intro i hi
    have hi' : i ∈ out.map Tile.id := hmap ▸ hi
    obtain ⟨t, ht, hid⟩ := hinv i hi
    show alistLookup (out.foldl (fun m t => alistInsert m t.id t) []) i = _
    rw [alistLookup_foldl_insert_tiles
      (fun k => ((alistLookup ts.tiles k).map Tile.toPersisted).getD defaultTile)
      out [] i hmem, if_pos hi', ht]
    rfl

/-- Two tiles added to a fresh tileset: `tile_order = [0, 1]`. -/
def exTilesetPineOak : Tileset := exTilesetPine.add_tile "models/oak.glb"

/-- C6 witness: the round trip on a concrete two-tile tileset. -/
theorem tileset_serde_roundtrip_witness :
    ∃ doc ts1,
      tilesetSerialize exTilesetPineOak = some doc ∧
      doc.version = TILESET_VERSION ∧
      doc.name = exTilesetPineOak.name ∧
      doc.tiles.map Tile.id = exTilesetPineOak.tile_order ∧
      tilesetDeserialize doc = Except.ok ts1 ∧
      ts1.name = exTilesetPineOak.name ∧
      ts1.tile_order = exTilesetPineOak.tile_order ∧
      (∀ i ∈ exTilesetPineOak.tile_order,
        alistLookup ts1.tiles i =
          (alistLookup exTilesetPineOak.tiles i).map Tile.toPersisted) :=
  tileset_serde_roundtrip exTilesetPineOak (by
    intro i hi
    have horder : exTilesetPineOak.tile_order = [0, 1] := rfl
    rw [horder] at hi
    fin_cases hi
    · exact ⟨_, rfl, rfl⟩
    · exact ⟨_, rfl, rfl⟩)

/-! ### C3: assign_save_ids -/

theorem alistLookup_append_eq_none {β : Type} {l r : List (Nat × β)} {k : Nat} :
    alistLookup (l ++ r) k = Option.none ↔
      alistLookup l k = Option.none ∧ alistLookup r k = Option.none := by
  induction l with
  | nil => simp [alistLookup]
  | cons p rest ih =>
    rw [List.cons_append, alistLookup, alistLookup]
    by_cases hpk : p.1 = k
    · simp [hpk]
    · simp only [if_neg hpk]
      exact ih

/-- Full behaviour of the `assign_save_ids` loop: it succeeds, appends a
block of new `(entity, id)` pairs whose ids are consecutive from `next`,
new pairs only cover entities that had no id, every requested entity ends
up with an id, and the returned map is the fold of the final per-entity
ids over the batch. -/
theorem assignSaveIdsGo_spec :
    ∀ (es : List Entity) (w : World) (next : SaveId) (emap : List (Entity × SaveId)),
      (∀ e ∈ es, e ∈ w.entities) →
      ∃ news emap1,
        assignSaveIdsGo w next emap es =
          Except.ok ({ w with save_ids := w.save_ids ++ news }, emap1) ∧
        news.map Prod.snd = List.range' next news.length ∧
        (∀ p ∈ news, alistLookup w.save_ids p.1 = Option.none) ∧
        (news.map Prod.fst).Nodup ∧
        (∀ e ∈ es, (alistLookup (w.save_ids ++ news) e).isSome) ∧
        emap1 = es.foldl
          (fun m e => alistInsert m e ((alistLookup (w.save_ids ++ news) e).getD 0))
          emap
  | [], w, next, emap, _ => by
    refine ⟨[], emap, ?_, rfl, by simp, List.nodup_nil, by simp, rfl⟩
    show Except.ok (w, emap) = _
    rw [List.append_nil]
  | e :: rest, w, next, emap, hes => by
    have he : e ∈ w.entities := hes e (List.mem_cons_self e rest)
    have hrest : ∀ e' ∈ rest, e' ∈ w.entities :=
      fun e' h => hes e' (List.mem_cons_of_mem _ h)
    rw [show assignSaveIdsGo w next emap (e :: rest) =
        if e ∈ w.entities then
          match alistLookup w.save_ids e with
          | some i => assignSaveIdsGo w next (alistInsert emap e i) rest
          | Option.none =>
              assignSaveIdsGo { w with save_ids := w.save_ids ++ [(e, next)] }
                (next + 1) (alistInsert emap e next) rest
        else Except.error "unknown entity" from rfl, if_pos he]
    cases hlook : alistLookup w.save_ids e with
    | some i =>
      obtain ⟨news, emap1, hrun, hrange, hfresh, hkeys, hsome, hemap⟩ :=
        assignSaveIdsGo_spec rest w next (alistInsert emap e i) hrest
      have hlookapp : alistLookup (w.save_ids ++ news) e = some i :=
        alistLookup_append_some hlook
      refine ⟨news, emap1, hrun, hrange, hfresh, hkeys, ?_, ?_⟩
      · intro e' he'
        rcases List.mem_cons.1 he' with rfl | he'
        · rw [hlookapp]; rfl
        · exact hsome e' he'
      · rw [List.foldl_cons, hlookapp]
        exact hemap
    | none =>
      obtain ⟨news', emap1, hrun, hrange, hfresh, hkeys, hsome, hemap⟩ :=
        assignSaveIdsGo_spec rest { w with save_ids := w.save_ids ++ [(e, next)] }
          (next + 1) (alistInsert emap e next) hrest
      have hassoc : (w.save_ids ++ [(e, next)]) ++ news' =
          w.save_ids ++ ((e, next) :: news') := by
        rw [List.append_assoc, List.singleton_append]
      have hlookapp : alistLookup (w.save_ids ++ (e, next) :: news') e = some next := by
        rw [alistLookup_append_none hlook, alistLookup, if_pos rfl]
      refine ⟨(e, next) :: news', emap1, ?_, ?_, ?_, ?_, ?_, ?_⟩
      · rw [hrun, hassoc]
      · rw [List.map_cons, hrange]
        show _ = List.range' next (news'.length + 1)
        rw [List.range'_succ]
      · intro p hp
        rcases List.mem_cons.1 hp with rfl | hp
        · exact hlook
        · exact ((alistLookup_append_eq_none).1 (hfresh p hp)).1
      · rw [List.map_cons]
        refine List.nodup_cons.2 ⟨?_, hkeys⟩
        intro hmem
        obtain ⟨p, hp, hpe⟩ := List.mem_map.1 hmem
        have hthis := hfresh p hp
        rw [hpe] at hthis
        have h2 := ((alistLookup_append_eq_none).1 hthis).2
        rw [alistLookup, if_pos rfl] at h2
        exact Option.noConfusion h2
      · intro e' he'
        rcases List.mem_cons.1 he' with rfl | he'
        · rw [hlookapp]; rfl
        · have := hsome e' he'
          rwa [hassoc] at this
      · rw [List.foldl_cons, hlookapp]
        rw [hassoc] at hemap
        exact hemap

/-- The `assign_save_ids` loop on a batch whose entities all already carry
an id: the world is unchanged and the returned map is the fold of the
existing ids. -/
theorem assignSaveIdsGo_allAssigned :
    ∀ (es : List Entity) (w : World) (next : SaveId) (emap : List (Entity × SaveId)),
      (∀ e ∈ es, e ∈ w.entities) →
      (∀ e ∈ es, (alistLookup w.save_ids e).isSome) →
      assignSaveIdsGo w next emap es =
        Except.ok (w, es.foldl
          (fun m e => alistInsert m e ((alistLookup w.save_ids e).getD 0)) emap)
  | [], w, next, emap, _, _ => rfl
  | e :: rest, w, next, emap, hes, hsome => by
    have he : e ∈ w.entities := hes e (List.mem_cons_self e rest)
    obtain ⟨i, hi⟩ := Option.isSome_iff_exists.1 (hsome e (List.mem_cons_self e rest))
    rw [show assignSaveIdsGo w next emap (e :: rest) =
        if e ∈ w.entities then
          match alistLookup w.save_ids e with
          | some i => assignSaveIdsGo w next (alistInsert emap e i) rest
          | Option.none =>
              assignSaveIdsGo { w with save_ids := w.save_ids ++ [(e, next)] }
                (next + 1) (alistInsert emap e next) rest
        else Except.error "unknown entity" from rfl, if_pos he, hi]
    show assignSaveIdsGo w next (alistInsert emap e i) rest = _
    rw [assignSaveIdsGo_allAssigned rest w next _
      (fun e' h => hes e' (List.mem_cons_of_mem _ h))
      (fun e' h => hsome e' (List.mem_cons_of_mem _ h))]
    rw [List.foldl_cons, hi]
    rfl

/-- C3: batch id assignment is reproducible and conservative: it succeeds
on entities that exist, running it a second time on the same batch returns
the identical entity-to-id map (and leaves the world unchanged), an id
already attached to an entity is returned as is (never overwritten), and
when the pre-existing ids are pairwise distinct the ids after assignment
are still pairwise distinct (new ids are consecutive values starting above
every existing id). -/
theorem assign_save_ids_spec (w : World) (es : List Entity)
    (hes : ∀ e ∈ es, e ∈ w.entities) :
    ∃ w1 emap,
      w.assign_save_ids es = Except.ok (w1, emap) ∧
      w1.assign_save_ids es = Except.ok (w1, emap) ∧
      (∀ e i, alistLookup w.save_ids e = some i → alistLookup w1.save_ids e = some i) ∧
      ((w.save_ids.map Prod.snd).Nodup → (w1.save_ids.map Prod.snd).Nodup) := by
  obtain ⟨news, emap1, hrun, hrange, hfresh, hkeys, hsome, hemap⟩ :=
    assignSaveIdsGo_spec es w w.save_id_next [] hes
  refine ⟨{ w with save_ids := w.save_ids ++ news }, emap1, hrun, ?_, ?_, ?_⟩
  · show assignSaveIdsGo _ _ [] es = _
    rw [assignSaveIdsGo_allAssigned es { w with save_ids := w.save_ids ++ news }
      _ [] hes hsome]
    rw [← hemap]
  · intro e i h
    exact alistLookup_append_some h
  · intro hnd
    show ((w.save_ids ++ news).map Prod.snd).Nodup
    rw [List.map_append, hrange]
    refine List.Nodup.append hnd (List.nodup_range' _ _) ?_
    intro a ha ha'
    obtain ⟨p, hp, hpa⟩ := List.mem_map.1 ha
    have h1 : a < w.save_id_next := hpa ▸ save_ids_lt_next w p hp
    obtain ⟨i, _, rfl⟩ := List.mem_range'.1 ha'
    exact absurd h1 (Nat.not_lt.2 (Nat.le_add_right _ _))

/-- C3 witness: a concrete batch over a world with pre-existing ids
`{3, 7}` and one unassigned entity; the pre-existing id `3` is returned
unchanged, the new entity receives `8`, and rerunning returns the same
map. -/
theorem assign_save_ids_spec_witness :
    ∃ w1 emap,
      exWorld37b.assign_save_ids [2, 0] = Except.ok (w1, emap) ∧
      w1.assign_save_ids [2, 0] = Except.ok (w1, emap) ∧
      (∀ e i, alistLookup exWorld37b.save_ids e = some i →
        alistLookup w1.save_ids e = some i) ∧
      ((exWorld37b.save_ids.map Prod.snd).Nodup →
        (w1.save_ids.map Prod.snd).Nodup) :=
  assign_save_ids_spec exWorld37b [2, 0] (by decide)

/-! ### C9: tile reordering -/

/-- The `(tile_id, index)` pairs of the selected entries of `order`,
indices starting at `n`. -/
def movedPairs (sel : List TileId) : List TileId → Nat → List (TileId × Nat)
  | [], _ => []
  | t :: rest, n =>
    if t ∈ sel then (t, n) :: movedPairs sel rest (n + 1)
    else movedPairs sel rest (n + 1)

theorem movedPairs_map_fst (sel : List TileId) :
    ∀ (order : List TileId) (n : Nat),
      (movedPairs sel order n).map Prod.fst =
        order.filter (fun t => decide (t ∈ sel))
  | [], _ => rfl
  | t :: rest, n => by
    rw [movedPairs, List.filter_cons]
    by_cases h : t ∈ sel
    · simp [h, movedPairs_map_fst sel rest (n + 1)]
    · simp [h, movedPairs_map_fst sel rest (n + 1)]

theorem reorderScanGo_moved (sel : List TileId) :
    ∀ (order : List TileId) (moved0 : List (TileId × Nat)) (n ins : Nat),
      (reorderScanGo sel moved0 n ins order).1 = moved0 ++ movedPairs sel order n
  | [], moved0, n, ins => by
    rw [reorderScanGo, movedPairs, List.append_nil]
  | t :: rest, moved0, n, ins => by
    rw [reorderScanGo, movedPairs]
    by_cases h : t ∈ sel
    · rw [if_pos h, if_pos h, reorderScanGo_moved sel rest, List.append_assoc,
        List.singleton_append]
    · rw [if_neg h, if_neg h, reorderScanGo_moved sel rest]

/-- Deleting the element after a prefix. -/
theorem eraseIdx_append_cons {α : Type} :
    ∀ (ctx : List α) (t : α) (l : List α),
      (ctx ++ t :: l).eraseIdx ctx.length = ctx ++ l
  | [], _, _ => rfl
  | c :: ctx, t, l => by
    rw [List.cons_append, List.length_cons, List.eraseIdx_cons_succ,
      eraseIdx_append_cons ctx t l, List.cons_append]

/-- Removing the recorded positions in descending order deletes exactly
the selected entries. -/
theorem removeFold_spec (sel : List TileId) :
    ∀ (order ctx : List TileId),
      ((movedPairs sel order ctx.length).reverse).foldlM
          (fun acc p => vecRemove acc p.2) (ctx ++ order) =
        some (ctx ++ order.filter (fun t => decide (t ∉ sel)))
  | [], ctx => by
    rw [movedPairs]
    simp
  | t :: rest, ctx => by
    rw [movedPairs, List.filter_cons]
    by_cases h : t ∈ sel
    · rw [if_pos h, List.reverse_cons, List.foldlM_append]
      have hctx : (ctx ++ [t]).length = ctx.length + 1 := by
        rw [List.length_append, List.length_singleton]
      have hstep := removeFold_spec sel rest (ctx ++ [t])
      rw [hctx, List.append_assoc, List.singleton_append] at hstep
      rw [hstep]
      show (some _).bind _ = _
      rw [Option.some_bind]
      show List.foldlM _ _ _ = _
      rw [List.foldlM_cons]
      have hlen : ctx.length < (ctx ++ [t] ++ rest.filter (fun t => decide (t ∉ sel))).length := by
        rw [List.length_append, List.length_append, List.length_singleton]
        exact Nat.lt_of_lt_of_le (Nat.lt_succ_self _)
          (Nat.le_add_right _ _)
      rw [List.append_assoc, List.singleton_append] at hlen
      unfold vecRemove
      rw [List.append_assoc, List.singleton_append, if_pos hlen,
        eraseIdx_append_cons ctx t _]
      show List.foldlM _ _ _ = _
      rw [List.foldlM_nil]
      simp [h]
    · rw [if_neg h]
      have hctx : (ctx ++ [t]).length = ctx.length + 1 := by
        rw [List.length_append, List.length_singleton]
      have hstep := removeFold_spec sel rest (ctx ++ [t])
      rw [hctx, List.append_assoc, List.singleton_append] at hstep
      rw [hstep]
      simp [h]

theorem insertIdx_eq_take_cons_drop {α : Type} :
    ∀ (l : List α) (n : Nat), n ≤ l.length → ∀ (a : α),
      l.insertIdx n a = l.take n ++ a :: l.drop n
  | l, 0, _, a => by simp
  | [], n + 1, h, a => by
    exact absurd h (by simp)
  | x :: xs, n + 1, h, a => by
    rw [List.insertIdx_succ_cons, List.take_succ_cons, List.drop_succ_cons,
      List.cons_append, insertIdx_eq_take_cons_drop xs n (by simpa using h) a]

/-- Inserting a list of elements one by one at a fixed index builds the
reversed block at that index. -/
theorem insertFold_spec {α : Type} :
    ∀ (ids : List α) (l : List α) (ins : Nat), ins ≤ l.length →
      ids.foldlM (fun acc a => vecInsert acc ins a) l =
        some (l.take ins ++ ids.reverse ++ l.drop ins)
  | [], l, ins, _ => by
    simp
  | a :: rest, l, ins, h => by
    rw [List.foldlM_cons]
    have hv : vecInsert l ins a = some (l.insertIdx ins a) := by
      unfold vecInsert
      rw [if_pos h]
    rw [hv]
    show List.foldlM (fun acc x => vecInsert acc ins x) (List.insertIdx ins a l) rest = _
    have hlen : ins ≤ (l.insertIdx ins a).length := by
      rw [List.length_insertIdx ins l h]
      exact Nat.le_succ_of_le h
    rw [insertFold_spec rest _ ins hlen, insertIdx_eq_take_cons_drop l ins h a]
    have hpre : (l.take ins).length = ins := by
      rw [List.length_take]
      exact Nat.min_eq_left h
    rw [List.take_left' hpre, List.drop_left' hpre, List.reverse_cons,
      List.append_assoc, List.append_assoc, List.append_assoc,
      List.singleton_append]

/-- C9 (amended): the drop branch removes the selected ids from
`tile_order` wherever they are and reinserts them as one contiguous block,
preserving their relative order, at the scan's final `insert_index` — the
index that starts at the drop index and is decremented for each selected
entry whose index is below the *already decremented* value (not, as
claimed, once per removed item before the destination).  The hypothesis is
the no-panic bound on the final index. -/
theorem reorderTiles_spec (sel : List TileId) (dropIndex : Nat)
    (order : List TileId)
    (hins : (reorderScan sel dropIndex order).2 ≤
      (order.filter (fun t => decide (t ∉ sel))).length) :
    reorderTiles sel dropIndex order =
      some ((order.filter (fun t => decide (t ∉ sel))).take
          (reorderScan sel dropIndex order).2 ++
        order.filter (fun t => decide (t ∈ sel)) ++
        (order.filter (fun t => decide (t ∉ sel))).drop
          (reorderScan sel dropIndex order).2) := by
  have hmoved : (reorderScan sel dropIndex order).1 = movedPairs sel order 0 := by
    show (reorderScanGo sel [] 0 dropIndex order).1 = _
    rw [reorderScanGo_moved, List.nil_append]
  have hrm : ((movedPairs sel order 0).reverse).foldlM
      (fun acc p => vecRemove acc p.2) order =
      some (order.filter (fun t => decide (t ∉ sel))) := by
    have h0 := removeFold_spec sel order []
    rw [List.nil_append, List.nil_append] at h0
    exact h0
  have hids : (movedPairs sel order 0).reverse.map Prod.fst =
      (order.filter (fun t => decide (t ∈ sel))).reverse := by
    rw [List.map_reverse, movedPairs_map_fst]
  have hif := insertFold_spec ((movedPairs sel order 0).reverse.map Prod.fst)
    (order.filter (fun t => decide (t ∉ sel)))
    (reorderScan sel dropIndex order).2 hins
  rw [List.foldlM_map] at hif
  rw [hids, List.reverse_reverse] at hif
  show ((reorderScan sel dropIndex order).1.reverse.foldlM
      (fun acc p => vecRemove acc p.2) order).bind
      (fun afterRemove => (reorderScan sel dropIndex order).1.reverse.foldlM
        (fun acc p => vecInsert acc (reorderScan sel dropIndex order).2 p.1)
        afterRemove) = _
  rw [hmoved, hrm, Option.some_bind]
  exact hif

/-- C9 counterexample: dragging the selected block `{0, 1}` of
`tile_order = [0, 1, 2, 3]` to drop index `2`.  The claim's index rule
("decremented once for each removed item before the destination") yields
adjusted index `0` and hence `[0, 1, 2, 3]`; the code decrements against
the already-decremented index, yielding adjusted index `1` and
`[2, 0, 1, 3]`. -/
theorem reorderTiles_counterexample :
    reorderTiles [0, 1] 2 [0, 1, 2, 3] = some [2, 0, 1, 3] ∧
    2 - (([0, 1, 2, 3].take 2).filter (fun t => decide (t ∈ [0, 1]))).length = 0 ∧
    reorderTiles [0, 1] 2 [0, 1, 2, 3] ≠ some [0, 1, 2, 3] := by
  decide

/-- C9 witness: the single-tile example of the claim does hold — after
three `add_tile`s, moving tile `0` to the end yields `[1, 2, 0]`. -/
theorem reorderTiles_spec_witness :
    ((reorderScan [0] 3 [0, 1, 2]).2 ≤
      (([0, 1, 2].filter (fun t => decide (t ∉ [0]))).length)) ∧
    reorderTiles [0] 3 [0, 1, 2] =
      some ((([0, 1, 2]).filter (fun t => decide (t ∉ [0]))).take
          (reorderScan [0] 3 [0, 1, 2]).2 ++
        ([0, 1, 2]).filter (fun t => decide (t ∈ [0])) ++
        (([0, 1, 2]).filter (fun t => decide (t ∉ [0]))).drop
          (reorderScan [0] 3 [0, 1, 2]).2) ∧
    reorderTiles [0] 3 [0, 1, 2] = some [1, 2, 0] :=
  ⟨by decide, reorderTiles_spec [0] 3 [0, 1, 2] (by decide), by decide⟩

/-! ### Decode-side lemmas for `try_spawn` -/

/-- The tileset entities `spawnDocTilesets` creates for `pairs` starting
at entity id `n`: one per document tileset, in document (BTreeMap) order,
all parented to `root`. -/
def spawnedTilesets (root : Entity) : Entity → List (SaveId × Tileset) → List TilesetEnt
  | _, [] => []
  | n, (_, ts) :: rest =>
    { eid := n, parent := root, ts := ts } :: spawnedTilesets root (n + 1) rest

/-- The `SaveId → Entity` map `spawnDocTilesets` builds for `pairs`
starting at entity id `n`. -/
def spawnedEmap : Entity → List (SaveId × Tileset) → List (SaveId × Entity)
  | _, [] => []
  | n, (i, _) :: rest => (i, n) :: spawnedEmap (n + 1) rest

theorem alistInsert_lookup_isSome {β : Type} (l : List (Nat × β)) (k k' : Nat)
    (v : β) :
    (alistLookup (alistInsert l k v) k').isSome ↔
      k' = k ∨ (alistLookup l k').isSome := by
  by_cases h : k' = k
  · subst h
    simp [alistInsert_lookup_self]
  · rw [alistInsert_lookup_ne _ _ _ _ h]
    simp [h]

/-- Which keys the accumulated entity map of `spawnDocTilesets`
resolves. -/
theorem spawnDocTilesets_lookup_isSome :
    ∀ (pairs : List (SaveId × Tileset)) (w : World)
      (emap : List (SaveId × Entity)) (root : Entity) (k : SaveId),
      (alistLookup (spawnDocTilesets root w emap pairs).2 k).isSome ↔
        (alistLookup emap k).isSome ∨ k ∈ pairs.map Prod.fst
  | [], w, emap, root, k => by
    rw [spawnDocTilesets]
    simp
  | (i, ts) :: rest, w, emap, root, k => by
    rw [spawnDocTilesets, spawnDocTilesets_lookup_isSome rest]
    rw [alistInsert_lookup_isSome]
    simp only [List.map_cons, List.mem_cons]
    tauto

/-- `spawnDocTilesets` only touches `next_entity`, `entities` and
`tilesets`; under fresh, duplicate-free document keys its result is the
closed form. -/
theorem spawnDocTilesets_spec :
    ∀ (pairs : List (SaveId × Tileset)) (w : World)
      (emap : List (SaveId × Entity)) (root : Entity),
      (pairs.map Prod.fst).Nodup →
      (∀ k ∈ pairs.map Prod.fst, alistLookup emap k = Option.none) →
      spawnDocTilesets root w emap pairs =
        ({ w with
            next_entity := w.next_entity + pairs.length
            entities := w.entities ++ List.range' w.next_entity pairs.length
            tilesets := w.tilesets ++ spawnedTilesets root w.next_entity pairs },
         emap ++ spawnedEmap w.next_entity pairs)
  | [], w, emap, root, _, _ => by
    rw [spawnDocTilesets, spawnedTilesets, spawnedEmap]
    simp
  | (i, ts) :: rest, w, emap, root, hnd, hfresh => by
    rw [List.map_cons] at hnd
    have hndc := List.nodup_cons.1 hnd
    have hi : i ∉ emap.map Prod.fst := by
      intro hmem
      have := hfresh i (by simp)
      rw [← alistLookup_isSome_iff] at hmem
      rw [this] at hmem
      exact Bool.noConfusion hmem
    rw [spawnDocTilesets, spawnedTilesets, spawnedEmap]
    show spawnDocTilesets root _ (alistInsert emap i w.next_entity) rest = _
    rw [alistInsert_append_of_not_mem hi w.next_entity]
    rw [spawnDocTilesets_spec rest _ _ root hndc.2 ?hfresh]
    case hfresh =>
      intro k hk
      rw [alistLookup_append_eq_none]
      refine ⟨hfresh k (List.mem_cons_of_mem _ hk), ?_⟩
      have hne : k ≠ i := by
        intro heq
        rw [heq] at hk
        exact hndc.1 hk
      rw [alistLookup, if_neg (Ne.symm hne)]
      rfl
    show (⟨_, _, _, _, _, _, _⟩, _) = ((⟨_, _, _, _, _, _, _⟩ : World), _)
    refine Prod.ext ?_ ?_
    · show World.mk _ _ _ _ _ _ _ = World.mk _ _ _ _ _ _ _
      congr 1
      · show w.next_entity + 1 + rest.length = w.next_entity + (rest.length + 1)
        rw [Nat.add_assoc, Nat.add_comm 1 rest.length]
      · show (w.entities ++ [w.next_entity]) ++ List.range' (w.next_entity + 1) rest.length =
          w.entities ++ List.range' w.next_entity (rest.length + 1)
        rw [List.append_assoc, List.singleton_append, List.range'_succ]
      · show (w.tilesets ++ [_]) ++ spawnedTilesets root (w.next_entity + 1) rest =
          w.tilesets ++ _ :: spawnedTilesets root (w.next_entity + 1) rest
        rw [List.append_assoc, List.singleton_append]
    · show (emap ++ [(i, w.next_entity)]) ++ spawnedEmap (w.next_entity + 1) rest =
        emap ++ (i, w.next_entity) :: spawnedEmap (w.next_entity + 1) rest
      rw [List.append_assoc, List.singleton_append]

/-- The tile entities the per-layer tile loop creates for `docTiles`
starting at entity id `n`, with each `tileset_ref` resolved through
`emap`. -/
def spawnedTileEnts (emap : List (SaveId × Entity)) : Entity → List MapTileDoc → List TileEnt
  | _, [] => []
  | n, t :: rest =>
    { eid := n, location := t.location,
      tileset_ref := (alistLookup emap t.tileset).getD 0,
      tile_id := t.tile_id, rotation := t.rotation } ::
    spawnedTileEnts emap (n + 1) rest

/-- The tile loop panics (`unwrap` on a missing entity-map entry) as soon
as any tile of the layer fails to resolve. -/
theorem spawnDocTiles_none (emap : List (SaveId × Entity)) :
    ∀ (docTiles : List MapTileDoc) (w : World),
      (∃ t ∈ docTiles, alistLookup emap t.tileset = Option.none) →
      spawnDocTiles emap w docTiles = Option.none
  | [], w, h => by
    obtain ⟨t, ht, _⟩ := h
    exact absurd ht (List.not_mem_nil t)
  | t :: rest, w, h => by
    rw [spawnDocTiles]
    cases hlook : alistLookup emap t.tileset with
    | none => rfl
    | some e =>
      obtain ⟨u, hu, hnone⟩ := h
      rcases List.mem_cons.1 hu with rfl | hu
      · rw [hlook] at hnone
        exact Option.noConfusion hnone
      · show Option.map (fun p => (p.1, (w.spawnTile t e).2 :: p.2))
            (spawnDocTiles emap (w.spawnTile t e).1 rest) = Option.none
        rw [spawnDocTiles_none emap rest _ ⟨u, hu, hnone⟩]
        rfl

/-- Success closed form of the tile loop: when every tile of the layer
resolves, the tiles are spawned in order with consecutive entity ids. -/
theorem spawnDocTiles_spec (emap : List (SaveId × Entity)) :
    ∀ (docTiles : List MapTileDoc) (w : World),
      (∀ t ∈ docTiles, (alistLookup emap t.tileset).isSome) →
      spawnDocTiles emap w docTiles =
        some ({ w with
            next_entity := w.next_entity + docTiles.length
            entities := w.entities ++ List.range' w.next_entity docTiles.length
            tiles := w.tiles ++ spawnedTileEnts emap w.next_entity docTiles },
          List.range' w.next_entity docTiles.length)
  | [], w, _ => by
    rw [spawnDocTiles, spawnedTileEnts]
    simp
  | t :: rest, w, h => by
    obtain ⟨e, he⟩ := Option.isSome_iff_exists.1 (h t (List.mem_cons_self t rest))
    rw [spawnDocTiles, he]
    show (spawnDocTiles emap _ rest).map _ = _
    rw [spawnDocTiles_spec emap rest _ (fun u hu => h u (List.mem_cons_of_mem _ hu))]
    show some (⟨_, _, _, _, _, _, _⟩, _) = some ((⟨_, _, _, _, _, _, _⟩ : World), _)
    rw [spawnedTileEnts, he]
    refine congrArg some (Prod.ext ?_ ?_)
    · show World.mk _ _ _ _ _ _ _ = World.mk _ _ _ _ _ _ _
      congr 1
      · show w.next_entity + 1 + rest.length = w.next_entity + (rest.length + 1)
        rw [Nat.add_assoc, Nat.add_comm 1 rest.length]
      · show (w.entities ++ [w.next_entity]) ++ List.range' (w.next_entity + 1) rest.length =
          w.entities ++ List.range' w.next_entity (rest.length + 1)
        rw [List.append_assoc, List.singleton_append, List.range'_succ]
      · show (w.tiles ++ [_]) ++ spawnedTileEnts emap (w.next_entity + 1) rest =
          w.tiles ++ _ :: spawnedTileEnts emap (w.next_entity + 1) rest
        rw [List.append_assoc, List.singleton_append]
        rfl
    · show w.next_entity :: List.range' (w.next_entity + 1) rest.length =
        List.range' w.next_entity (rest.length + 1)
      rw [List.range'_succ]

/-- Pointwise-identity map. -/
theorem map_eq_self_of {α : Type} (f : α → α) :
    ∀ (l : List α), (∀ x ∈ l, f x = x) → l.map f = l
  | [], _ => rfl
  | x :: rest, h => by
    rw [List.map_cons, h x (List.mem_cons_self x rest),
      map_eq_self_of f rest (fun y hy => h y (List.mem_cons_of_mem _ hy))]

/-- The layer entities the layer-restoring loop creates: one per document
layer, each followed by its tile entities; the `map::Layer` component is
rebuilt with an empty `tiles` index. -/
def spawnedLayerEnts (root : Entity) : Entity → List MapLayerDoc → List LayerEnt
  | _, [] => []
  | n, l :: rest =>
    { eid := n, parent := root, name := l.name, tiles := [],
      children := List.range' (n + 1) l.tiles.length } ::
    spawnedLayerEnts root (n + 1 + l.tiles.length) rest

/-- The tile entities of all layers, in spawn order. -/
def spawnedLayersTiles (emap : List (SaveId × Entity)) :
    Entity → List MapLayerDoc → List TileEnt
  | _, [] => []
  | n, l :: rest =>
    spawnedTileEnts emap (n + 1) l.tiles ++
    spawnedLayersTiles emap (n + 1 + l.tiles.length) rest

/-- Number of entities the layer loop spawns. -/
def layersEntCount : List MapLayerDoc → Nat
  | [] => 0
  | l :: rest => 1 + l.tiles.length + layersEntCount rest

/-- The layer loop panics as soon as any tile of any layer fails to
resolve its tileset ref. -/
theorem spawnDocLayers_none (root : Entity) (emap : List (SaveId × Entity)) :
    ∀ (docLayers : List MapLayerDoc) (w : World),
      (∃ l ∈ docLayers, ∃ t ∈ l.tiles, alistLookup emap t.tileset = Option.none) →
      spawnDocLayers root emap w docLayers = Option.none
  | [], w, h => by
    obtain ⟨l, hl, _⟩ := h
    exact absurd hl (List.not_mem_nil l)
  | l :: rest, w, h => by
    show (match spawnDocTiles emap ((w.spawnLayer root l.name).1) l.tiles with
      | Option.none => Option.none
      | some (w2, tileEnts) =>
          spawnDocLayers root emap
            (w2.pushChildren (w.spawnLayer root l.name).2 tileEnts) rest) = Option.none
    by_cases hbadhead : ∃ t ∈ l.tiles, alistLookup emap t.tileset = Option.none
    · rw [spawnDocTiles_none emap l.tiles _ hbadhead]
    · have hgood : ∀ t ∈ l.tiles, (alistLookup emap t.tileset).isSome := by
        intro t ht
        rcases hsome : alistLookup emap t.tileset with _ | e
        · exact absurd ⟨t, ht, hsome⟩ hbadhead
        · rfl
      rw [spawnDocTiles_spec emap l.tiles _ hgood]
      have hrest : ∃ l' ∈ rest, ∃ t ∈ l'.tiles, alistLookup emap t.tileset = Option.none := by
        obtain ⟨l', hl', t, ht, hnone⟩ := h
        rcases List.mem_cons.1 hl' with rfl | hl'
        · exact absurd ⟨t, ht, hnone⟩ hbadhead
        · exact ⟨l', hl', t, ht, hnone⟩
      exact spawnDocLayers_none root emap rest _ hrest

/-- Splitting a consecutive entity-id range into the layer entity, its
tiles, and the remaining layers. -/
theorem range'_decomp (n a b : Nat) :
    n :: (List.range' (n + 1) a ++ List.range' (n + 1 + a) b) =
    List.range' n (1 + a + b) := by
  rw [List.range'_append_1, ← List.range'_succ]
  have h : b + a + 1 = 1 + a + b := by ring
  rw [h]

/-- `push_children` when the target layer is the last one and no earlier
layer shares its entity id. -/
theorem pushChildren_spec (w : World) (e : Entity) (cs : List Entity)
    (front : List LayerEnt) (L : LayerEnt)
    (hlayers : w.layers = front ++ [L])
    (hfront : ∀ l ∈ front, l.eid ≠ e) (hL : L.eid = e) :
    w.pushChildren e cs =
      { w with layers := front ++ [{ L with children := L.children ++ cs }] } := by
  unfold World.pushChildren
  show World.mk _ _ _ _ _ _ _ = World.mk _ _ _ _ _ _ _
  congr 1
  rw [hlayers, List.map_append]
  have hold : front.map
      (fun l => if l.eid = e then { l with children := l.children ++ cs } else l) =
      front :=
    map_eq_self_of _ front (fun x hx => by rw [if_neg (hfront x hx)])
  rw [hold, List.map_singleton, if_pos hL]

/-- Success closed form of the layer loop under resolvable refs and fresh
entity ids. -/
theorem spawnDocLayers_spec (root : Entity) (emap : List (SaveId × Entity)) :
    ∀ (docLayers : List MapLayerDoc) (w : World),
      (∀ l ∈ docLayers, ∀ t ∈ l.tiles, (alistLookup emap t.tileset).isSome) →
      (∀ l ∈ w.layers, l.eid < w.next_entity) →
      spawnDocLayers root emap w docLayers =
        some { w with
          next_entity := w.next_entity + layersEntCount docLayers
          entities := w.entities ++ List.range' w.next_entity (layersEntCount docLayers)
          layers := w.layers ++ spawnedLayerEnts root w.next_entity docLayers
          tiles := w.tiles ++ spawnedLayersTiles emap w.next_entity docLayers }
  | [], w, _, _ => by
    rw [spawnDocLayers, spawnedLayerEnts, spawnedLayersTiles, layersEntCount]
    simp
  | l :: rest, w, hres, hwf => by
    show (match spawnDocTiles emap ((w.spawnLayer root l.name).1) l.tiles with
      | Option.none => Option.none
      | some (w2, tileEnts) =>
          spawnDocLayers root emap
            (w2.pushChildren (w.spawnLayer root l.name).2 tileEnts) rest) = _
    rw [spawnDocTiles_spec emap l.tiles _ (hres l (List.mem_cons_self l rest))]
    show spawnDocLayers root emap
      (World.pushChildren _ (w.spawnLayer root l.name).2 _) rest = _
    simp only [show (w.spawnLayer root l.name).2 = w.next_entity from rfl,
      show (w.spawnLayer root l.name).1.next_entity = w.next_entity + 1 from rfl,
      show (w.spawnLayer root l.name).1.entities = w.entities ++ [w.next_entity] from rfl,
      show (w.spawnLayer root l.name).1.maps = w.maps from rfl,
      show (w.spawnLayer root l.name).1.save_ids = w.save_ids from rfl,
      show (w.spawnLayer root l.name).1.tilesets = w.tilesets from rfl,
      show (w.spawnLayer root l.name).1.tiles = w.tiles from rfl,
      show (w.spawnLayer root l.name).1.layers = w.layers ++
        [{ eid := w.next_entity, parent := root, name := l.name, tiles := [],
           children := ([] : List Entity) }] from rfl]
    rw [pushChildren_spec _ _ _ w.layers
      { eid := w.next_entity, parent := root, name := l.name, tiles := [],
        children := [] }
      rfl (fun l' hl' => Nat.ne_of_lt (hwf l' hl')) rfl]
    rw [spawnDocLayers_spec root emap rest _
      (fun l' hl' t ht => hres l' (List.mem_cons_of_mem _ hl') t ht) ?hwf]
    case hwf =>
      intro l' hl'
      rcases List.mem_append.1 hl' with hl' | hl'
      · show l'.eid < w.next_entity + 1 + l.tiles.length
        exact Nat.lt_of_lt_of_le (hwf l' hl')
          (Nat.le_trans (Nat.le_succ _) (Nat.le_add_right _ _))
      · rw [List.mem_singleton] at hl'
        rw [hl']
        show w.next_entity < w.next_entity + 1 + l.tiles.length
        exact Nat.lt_of_lt_of_le (Nat.lt_succ_self _) (Nat.le_add_right _ _)
    refine congrArg some ?_
    show World.mk _ _ _ _ _ _ _ = World.mk _ _ _ _ _ _ _
    congr 1
    · show w.next_entity + 1 + l.tiles.length + layersEntCount rest =
        w.next_entity + (1 + l.tiles.length + layersEntCount rest)
      ring
    · show ((w.entities ++ [w.next_entity]) ++
          List.range' (w.next_entity + 1) l.tiles.length) ++
          List.range' (w.next_entity + 1 + l.tiles.length) (layersEntCount rest) =
        w.entities ++ List.range' w.next_entity (1 + l.tiles.length + layersEntCount rest)
      rw [← range'_decomp w.next_entity l.tiles.length (layersEntCount rest)]
      simp only [List.append_assoc, List.singleton_append, List.cons_append,
        List.nil_append]
    · show (w.layers ++ [_]) ++
          spawnedLayerEnts root (w.next_entity + 1 + l.tiles.length) rest =
        w.layers ++ spawnedLayerEnts root w.next_entity (l :: rest)
      rw [List.append_assoc, List.singleton_append, spawnedLayerEnts]
      rfl
    · show (w.tiles ++ spawnedTileEnts emap (w.next_entity + 1) l.tiles) ++
          spawnedLayersTiles emap (w.next_entity + 1 + l.tiles.length) rest =
        w.tiles ++ spawnedLayersTiles emap w.next_entity (l :: rest)
      rw [List.append_assoc, spawnedLayersTiles]

/-- Restoring tilesets never touches the layer table. -/
theorem spawnDocTilesets_layers :
    ∀ (pairs : List (SaveId × Tileset)) (w : World)
      (emap : List (SaveId × Entity)) (root : Entity),
      (spawnDocTilesets root w emap pairs).1.layers = w.layers
  | [], w, emap, root => rfl
  | (i, ts) :: rest, w, emap, root => by
    rw [spawnDocTilesets]
    exact spawnDocTilesets_layers rest _ _ root

/-- The tile loop never touches the layer table. -/
theorem spawnDocTiles_layers (emap : List (SaveId × Entity)) :
    ∀ (docTiles : List MapTileDoc) (w w2 : World) (es : List Entity),
      spawnDocTiles emap w docTiles = some (w2, es) → w2.layers = w.layers
  | [], w, w2, es, h => by
    rw [spawnDocTiles] at h
    cases h
    rfl
  | t :: rest, w, w2, es, h => by
    cases hlook : alistLookup emap t.tileset with
    | none =>
      rw [spawnDocTiles, hlook] at h
      exact Option.noConfusion h
    | some e =>
      replace h : (spawnDocTiles emap (w.spawnTile t e).1 rest).map
          (fun p => (p.1, (w.spawnTile t e).2 :: p.2)) = some (w2, es) := by
        rw [spawnDocTiles, hlook] at h
        exact h
      cases hrec : spawnDocTiles emap (w.spawnTile t e).1 rest with
      | none =>
        rw [hrec] at h
        exact Option.noConfusion h
      | some p =>
        rw [hrec] at h
        obtain ⟨w3, es'⟩ := p
        cases h
        have hih := spawnDocTiles_layers emap rest _ _ _ hrec
        rw [hih]
        rfl

/-- Every layer the layer loop produces carries an empty `map::Layer.tiles`
index, and pre-existing empty indexes stay empty. -/
theorem spawnDocLayers_tiles_empty (root : Entity) (emap : List (SaveId × Entity)) :
    ∀ (docLayers : List MapLayerDoc) (w w' : World),
      spawnDocLayers root emap w docLayers = some w' →
      (∀ l ∈ w.layers, l.tiles = []) → ∀ l ∈ w'.layers, l.tiles = []
  | [], w, w', h, hempty => by
    rw [spawnDocLayers] at h
    cases h
    exact hempty
  | dl :: rest, w, w', h, hempty => by
    replace h : (match spawnDocTiles emap ((w.spawnLayer root dl.name).1) dl.tiles with
      | Option.none => Option.none
      | some (w2, tileEnts) =>
          spawnDocLayers root emap
            (w2.pushChildren (w.spawnLayer root dl.name).2 tileEnts) rest) = some w' := h
    cases hrec : spawnDocTiles emap ((w.spawnLayer root dl.name).1) dl.tiles with
    | none =>
      rw [hrec] at h
      exact Option.noConfusion h
    | some p =>
      rw [hrec] at h
      obtain ⟨w2, tileEnts⟩ := p
      refine spawnDocLayers_tiles_empty root emap rest _ w' h ?_
      intro l hl
      unfold World.pushChildren at hl
      obtain ⟨l0, hl0, rfl⟩ := List.mem_map.1 hl
      have hl0tiles : l0.tiles = [] := by
        have hw2 : w2.layers = (w.spawnLayer root dl.name).1.layers :=
          spawnDocTiles_layers emap dl.tiles _ _ _ hrec
        rw [hw2] at hl0
        have : (w.spawnLayer root dl.name).1.layers = w.layers ++
            [{ eid := w.next_entity, parent := root, name := dl.name, tiles := [],
               children := [] }] := rfl
        rw [this] at hl0
        rcases List.mem_append.1 hl0 with hmem | hmem
        · exact hempty _ hmem
        · rw [List.mem_singleton] at hmem
          rw [hmem]
      by_cases hcond : l0.eid = (w.spawnLayer root dl.name).2
      · rw [if_pos hcond]
        exact hl0tiles
      · rw [if_neg hcond]
        exact hl0tiles

/-- C10: after a successful `try_spawn` into a target whose pre-existing
layers have empty `map::Layer.tiles` indexes (in particular into a
fresh import root, which has no layers), every live layer's `tiles` index is
empty: `From<&persistence::Layer>` builds the component with
`HashMap::new()` and `try_spawn` never fills it — decoded placements exist
only as child entities. -/
theorem try_spawn_layer_index_empty (m : MapFormat) (w : World) (root : Entity)
    (w' : World)
    (hempty : ∀ l ∈ w.layers, l.tiles = [])
    (hok : m.try_spawn w root = SpawnOutcome.ok w') :
    ∀ l ∈ w'.layers, l.tiles = [] := by
  unfold MapFormat.try_spawn at hok
  by_cases hv : m.version ≠ MAP_FORMAT_VERSION
  · rw [if_pos hv] at hok
    exact SpawnOutcome.noConfusion hok
  · rw [if_neg hv] at hok
    replace hok : (match spawnDocLayers root
        (spawnDocTilesets root w [] m.tilesets).2
        (spawnDocTilesets root w [] m.tilesets).1 m.layers with
      | Option.none => SpawnOutcome.panicked
      | some w2 => SpawnOutcome.ok
          { w2 with maps := alistInsert w2.maps root m.layout }) =
        SpawnOutcome.ok w' := hok
    cases hrec : spawnDocLayers root (spawnDocTilesets root w [] m.tilesets).2
        (spawnDocTilesets root w [] m.tilesets).1 m.layers with
    | none =>
      rw [hrec] at hok
      exact SpawnOutcome.noConfusion hok
    | some w2 =>
      rw [hrec] at hok
      cases hok
      show ∀ l ∈ w2.layers, l.tiles = []
      refine spawnDocLayers_tiles_empty root _ m.layers _ w2 hrec ?_
      rw [spawnDocTilesets_layers]
      exact hempty

/-- A well-formed single-layer document over one tileset. -/
def exDocOk : MapFormat :=
  { version := 1, layout := HexLayout.default,
    tilesets := [(0, exTilesetPine)],
    layers := [{ name := "layer 0", tiles :=
      [{ location := { x := 0, y := 0 }, tileset := 0, tile_id := 0,
         rotation := TileRotation.rotNone },
       { location := { x := 1, y := 2 }, tileset := 0, tile_id := 0,
         rotation := TileRotation.clockwise60 }] }],
    entity_map := [] }

/-- C10 witness: decoding the concrete document into a fresh root
succeeds and every live layer has an empty `tiles` index. -/
theorem try_spawn_layer_index_empty_witness :
    ∃ w', exDocOk.try_spawn freshWorld 0 = SpawnOutcome.ok w' ∧
      ∀ l ∈ w'.layers, l.tiles = [] := by
  refine ⟨_, rfl, ?_⟩
  exact try_spawn_layer_index_empty exDocOk freshWorld 0 _
    (fun l hl => absurd hl (List.not_mem_nil l)) rfl

/-- C1 (amended): during `try_spawn`, a `TileInstance` whose
`tileset_ref` does not resolve to a document tileset is not skipped and
logged — the `entity_map.get(..).unwrap()` panics, crashing the whole
load.  Whenever a version-valid document contains any tile whose
`tileset` id is not a key of `tilesets`, the outcome is a panic and no
live graph is produced. -/
theorem try_spawn_unresolved_ref_panics (m : MapFormat) (w : World)
    (root : Entity)
    (hv : m.version = MAP_FORMAT_VERSION)
    (hbad : ∃ l ∈ m.layers, ∃ t ∈ l.tiles,
      t.tileset ∉ m.tilesets.map Prod.fst) :
    m.try_spawn w root = SpawnOutcome.panicked := by
  unfold MapFormat.try_spawn
  rw [if_neg (by rw [hv]; exact fun h => h rfl)]
  show (match spawnDocLayers root (spawnDocTilesets root w [] m.tilesets).2
      (spawnDocTilesets root w [] m.tilesets).1 m.layers with
    | Option.none => SpawnOutcome.panicked
    | some w2 => SpawnOutcome.ok
        { w2 with maps := alistInsert w2.maps root m.layout }) = _
  rw [spawnDocLayers_none root _ m.layers _ ?bad]
  case bad =>
    obtain ⟨l, hl, t, ht, hmem⟩ := hbad
    refine ⟨l, hl, t, ht, ?_⟩
    have hiff := spawnDocTilesets_lookup_isSome m.tilesets w [] root t.tileset
    cases hlk : alistLookup (spawnDocTilesets root w [] m.tilesets).2 t.tileset with
    | none => rfl
    | some e =>
      rw [hlk] at hiff
      simp only [alistLookup, Option.isSome_some, Option.isSome_none,
        true_iff, Bool.false_eq_true, false_or] at hiff
      exact absurd hiff hmem

/-- A document with one tileset (id 0) and a layer of three tiles whose
second references the nonexistent tileset id 5. -/
def c1doc : MapFormat :=
  { version := 1, layout := HexLayout.default,
    tilesets := [(0, exTilesetPine)],
    layers := [{ name := "layer 0", tiles :=
      [{ location := { x := 0, y := 0 }, tileset := 0, tile_id := 0,
         rotation := TileRotation.rotNone },
       { location := { x := 1, y := 0 }, tileset := 5, tile_id := 0,
         rotation := TileRotation.rotNone },
       { location := { x := 2, y := 0 }, tileset := 0, tile_id := 0,
         rotation := TileRotation.rotNone }] }],
    entity_map := [] }

/-- C1 counterexample: decoding the three-tile document whose second tile
references nonexistent tileset id 5 does not yield a live layer with the
1st and 3rd tiles — `try_spawn` panics, and no success outcome exists. -/
theorem try_spawn_skip_claim_counterexample :
    c1doc.try_spawn freshWorld 0 = SpawnOutcome.panicked ∧
    ∀ w', c1doc.try_spawn freshWorld 0 ≠ SpawnOutcome.ok w' := by
  have h : c1doc.try_spawn freshWorld 0 = SpawnOutcome.panicked := by rfl
  refine ⟨h, fun w' hok => ?_⟩
  rw [h] at hok
  exact SpawnOutcome.noConfusion hok

/-- C1 witness: the amended statement applied to the concrete three-tile
document. -/
theorem try_spawn_unresolved_ref_panics_witness :
    c1doc.try_spawn freshWorld 0 = SpawnOutcome.panicked :=
  try_spawn_unresolved_ref_panics c1doc freshWorld 0 rfl (by decide)

/-! ### C2: encode/decode round trip -/

theorem alistLookup_inj_of_values_nodup {β : Type} :
    ∀ (l : List (Nat × β)), (l.map Prod.snd).Nodup →
      ∀ (k k' : Nat) (v : β), alistLookup l k = some v →
        alistLookup l k' = some v → k = k'
  | [], _, k, k', v, h, _ => by simp [alistLookup] at h
  | (a, b) :: rest, hnd, k, k', v, h, h' => by
    rw [List.map_cons] at hnd
    have hndc := List.nodup_cons.1 hnd
    rw [alistLookup] at h h'
    by_cases hk : a = k
    · by_cases hk' : a = k'
      · rw [← hk, ← hk']
      · rw [if_pos hk] at h
        rw [if_neg hk'] at h'
        obtain rfl := Option.some_injective _ h
        exact absurd (List.mem_map_of_mem Prod.snd (alistLookup_mem h'))
          (by simpa using hndc.1)
    · by_cases hk' : a = k'
      · rw [if_neg hk] at h
        rw [if_pos hk'] at h'
        obtain rfl := Option.some_injective _ h'
        exact absurd (List.mem_map_of_mem Prod.snd (alistLookup_mem h))
          (by simpa using hndc.1)
      · rw [if_neg hk] at h
        rw [if_neg hk'] at h'
        exact alistLookup_inj_of_values_nodup rest hndc.2 k k' v h h'

/-- `find?` by entity id over a duplicate-free tileset table. -/
theorem find_tileset_of_mem :
    ∀ (li : List TilesetEnt), (li.map TilesetEnt.eid).Nodup →
      ∀ t ∈ li,
        (li.find? (fun u => u.eid = t.eid)).map (fun u => u.ts) = some t.ts
  | [], _, t, ht => absurd ht (List.not_mem_nil t)
  | u :: rest, hnd, t, ht => by
    rw [List.map_cons] at hnd
    have hndc := List.nodup_cons.1 hnd
    rcases List.mem_cons.1 ht with rfl | ht
    · rw [List.find?_cons_of_pos _ (by simp)]
      rfl
    · rw [List.find?_cons_of_neg _ ?hne]
      case hne =>
        simp only [decide_eq_true_eq]
        intro heq
        exact hndc.1 (heq ▸ List.mem_map_of_mem TilesetEnt.eid ht)
      exact find_tileset_of_mem rest hndc.2 t ht

/-- `Tileset` component lookup finds the member entity when entity ids are
unique. -/
theorem lookupTileset_of_mem (w : World)
    (hnd : (w.tilesets.map TilesetEnt.eid).Nodup) :
    ∀ t ∈ w.tilesets, lookupTileset w t.eid = some t.ts :=
  fun t ht => find_tileset_of_mem w.tilesets hnd t ht

/-- `mapM` in `Except` when every element succeeds. -/
theorem mapM_except_ok {α β ε : Type} (g : α → Except ε β) (h : α → β) :
    ∀ (li : List α), (∀ x ∈ li, g x = Except.ok (h x)) →
      li.mapM g = Except.ok (li.map h)
  | [], _ => rfl
  | x :: rest, hall => by
    rw [List.mapM_cons, hall x (List.mem_cons_self x rest),
      mapM_except_ok g h rest (fun y hy => hall y (List.mem_cons_of_mem _ hy))]
    rfl

/-- `btreeInsert` with a fresh key is a permutation of consing the
pair. -/
theorem btreeInsert_perm {β : Type} :
    ∀ {l : List (Nat × β)} {k : Nat} {v : β}, k ∉ l.map Prod.fst →
      (btreeInsert l k v).Perm ((k, v) :: l)
  | [], k, v, _ => List.Perm.refl _
  | (a, b) :: rest, k, v, h => by
    rw [List.map_cons, List.mem_cons, not_or] at h
    rw [btreeInsert]
    by_cases h1 : k < a
    · rw [if_pos h1]
    · rw [if_neg h1, if_neg h.1]
      exact (List.Perm.cons _ (btreeInsert_perm h.2)).trans
        (List.Perm.swap _ _ _)

/-- Folding `btreeInsert` over pairs with globally fresh, duplicate-free
keys produces a permutation of the accumulated pairs. -/
theorem btree_fold_perm {β : Type} :
    ∀ (pairs : List (Nat × β)) (acc : List (Nat × β)),
      ((acc ++ pairs).map Prod.fst).Nodup →
      (pairs.foldl (fun ts p => btreeInsert ts p.1 p.2) acc).Perm (acc ++ pairs)
  | [], acc, _ => by simp
  | p :: rest, acc, hnd => by
    rw [List.foldl_cons]
    have hfresh : p.1 ∉ acc.map Prod.fst := by
      intro hmem
      rw [List.map_append] at hnd
      exact absurd (by simp : p.1 ∈ (p :: rest).map Prod.fst)
        ((List.nodup_append.1 hnd).2.2 hmem)
    have hperm1 : (btreeInsert acc p.1 p.2).Perm (p :: acc) :=
      btreeInsert_perm hfresh
    have hperm2 : (btreeInsert acc p.1 p.2 ++ rest).Perm (acc ++ p :: rest) :=
      (hperm1.append_right rest).trans List.perm_middle.symm
    have hnd2 : ((btreeInsert acc p.1 p.2 ++ rest).map Prod.fst).Nodup :=
      ((hperm2.map Prod.fst).nodup_iff).2 hnd
    exact (btree_fold_perm rest _ hnd2).trans hperm2

/-- The document tile built from a live tile by `add_layers`, with its
tileset entity resolved through the batch entity map. -/
def mkMapTileDoc (emap : List (Entity × SaveId)) (t : TileEnt) : MapTileDoc :=
  { location := t.location, tileset := (alistLookup emap t.tileset_ref).getD 0,
    tile_id := t.tile_id, rotation := t.rotation }

/-- The document layer `add_layers` builds from a live layer. -/
def mkMapLayerDoc (w : World) (emap : List (Entity × SaveId)) (l : LayerEnt) :
    MapLayerDoc :=
  { name := l.name,
    tiles := l.children.filterMap (fun c =>
      (lookupTile w c).map (fun t => mkMapTileDoc emap t)) }

theorem encodeTiles_fold (w : World) (emap : List (Entity × SaveId)) :
    ∀ (cs : List Entity) (acc : List MapTileDoc),
      (∀ c ∈ cs, ∀ t, lookupTile w c = some t →
        (alistLookup emap t.tileset_ref).isSome) →
      cs.foldlM (encodeTileStep w emap) acc =
        Except.ok (acc ++ cs.filterMap (fun c =>
          (lookupTile w c).map (fun t => mkMapTileDoc emap t)))
  | [], acc, _ => by
    show Except.ok acc = _
    rw [List.filterMap_nil, List.append_nil]
  | c :: rest, acc, h => by
    rw [List.foldlM_cons]
    cases hlt : lookupTile w c with
    | none =>
      have hstep : encodeTileStep w emap acc c = Except.ok acc := by
        unfold encodeTileStep
        rw [hlt]
      rw [hstep]
      show List.foldlM (encodeTileStep w emap) acc rest = _
      rw [encodeTiles_fold w emap rest acc
        (fun c' hc' => h c' (List.mem_cons_of_mem _ hc')),
        List.filterMap_cons, hlt]
      rfl
    | some t =>
      obtain ⟨sid, hsid⟩ := Option.isSome_iff_exists.1
        (h c (List.mem_cons_self c rest) t hlt)
      have hstep : encodeTileStep w emap acc c =
          Except.ok (acc ++ [mkMapTileDoc emap t]) := by
        simp only [encodeTileStep, hlt, mkMapTileDoc, hsid, Option.getD_some]
      rw [hstep]
      show List.foldlM (encodeTileStep w emap) (acc ++ [mkMapTileDoc emap t]) rest = _
      rw [encodeTiles_fold w emap rest _
        (fun c' hc' => h c' (List.mem_cons_of_mem _ hc')),
        List.filterMap_cons, hlt]
      show Except.ok _ = Except.ok (acc ++ (mkMapTileDoc emap t) :: _)
      rw [List.append_assoc, List.singleton_append]

/-- `encodeLayer` under resolvable tileset refs. -/
theorem encodeLayer_spec (w : World) (emap : List (Entity × SaveId))
    (l : LayerEnt)
    (h : ∀ c ∈ l.children, ∀ t, lookupTile w c = some t →
      (alistLookup emap t.tileset_ref).isSome) :
    encodeLayer w emap l = Except.ok (mkMapLayerDoc w emap l) := by
  unfold encodeLayer
  rw [encodeTiles_fold w emap l.children [] h]
  rfl

/-- Repeated `btreeInsert` of a pair list into an accumulator. -/
def btreeOfList {β : Type} (pairs : List (Nat × β)) (acc : List (Nat × β)) :
    List (Nat × β) :=
  pairs.foldl (fun ts p => btreeInsert ts p.1 p.2) acc

/-- The `add_tilesets` loop under defined ids and components. -/
theorem addTilesets_fold (w1 : World) (emap : List (Entity × SaveId))
    (f : Entity → SaveId) (g : Entity → Tileset) :
    ∀ (es : List Entity) (acc : MapFormat),
      (∀ e ∈ es, alistLookup emap e = some (f e) ∧
        lookupTileset w1 e = some (g e)) →
      es.foldlM (addTilesetStep w1 emap) acc =
        Except.ok { acc with
          tilesets := btreeOfList (es.map (fun e => (f e, g e))) acc.tilesets }
  | [], acc, _ => by
    show Except.ok acc = _
    rw [List.map_nil]
    rfl
  | e :: rest, acc, h => by
    rw [List.foldlM_cons]
    have hstep : addTilesetStep w1 emap acc e =
        Except.ok { acc with tilesets := btreeInsert acc.tilesets (f e) (g e) } := by
      simp only [addTilesetStep, (h e (List.mem_cons_self e rest)).1,
        (h e (List.mem_cons_self e rest)).2]
    rw [hstep]
    show List.foldlM (addTilesetStep w1 emap) _ rest = _
    rw [addTilesets_fold w1 emap f g rest _
      (fun e' he' => h e' (List.mem_cons_of_mem _ he'))]
    rw [List.map_cons]
    show Except.ok _ = Except.ok _
    refine congrArg Except.ok ?_
    show MapFormat.mk _ _ _ _ _ = MapFormat.mk _ _ _ _ _
    congr 1

/-! ### Decode-side characterization for the round trip -/

theorem spawnedTilesets_parent (root : Entity) :
    ∀ (pairs : List (SaveId × Tileset)) (n : Entity),
      ∀ t ∈ spawnedTilesets root n pairs, t.parent = root
  | [], _, t, ht => absurd ht (List.not_mem_nil t)
  | (i, ts) :: rest, n, t, ht => by
    rw [spawnedTilesets] at ht
    rcases List.mem_cons.1 ht with rfl | ht
    · rfl
    · exact spawnedTilesets_parent root rest (n + 1) t ht

theorem spawnedTilesets_map_ts (root : Entity) :
    ∀ (pairs : List (SaveId × Tileset)) (n : Entity),
      (spawnedTilesets root n pairs).map TilesetEnt.ts = pairs.map Prod.snd
  | [], _ => rfl
  | (i, ts) :: rest, n => by
    rw [spawnedTilesets, List.map_cons, List.map_cons,
      spawnedTilesets_map_ts root rest (n + 1)]

theorem spawnedLayerEnts_parent (root : Entity) :
    ∀ (docLayers : List MapLayerDoc) (n : Entity),
      ∀ l ∈ spawnedLayerEnts root n docLayers, l.parent = root
  | [], _, l, hl => absurd hl (List.not_mem_nil l)
  | dl :: rest, n, l, hl => by
    rw [spawnedLayerEnts] at hl
    rcases List.mem_cons.1 hl with rfl | hl
    · rfl
    · exact spawnedLayerEnts_parent root rest _ l hl

theorem spawnedLayerEnts_map_name (root : Entity) :
    ∀ (docLayers : List MapLayerDoc) (n : Entity),
      (spawnedLayerEnts root n docLayers).map LayerEnt.name =
        docLayers.map MapLayerDoc.name
  | [], _ => rfl
  | dl :: rest, n => by
    rw [spawnedLayerEnts, List.map_cons, List.map_cons,
      spawnedLayerEnts_map_name root rest _]

theorem spawnedEmap_lookup_bound :
    ∀ (pairs : List (SaveId × Tileset)) (n : Entity) (k : SaveId) (e : Entity),
      alistLookup (spawnedEmap n pairs) k = some e →
      n ≤ e ∧ e < n + pairs.length
  | [], n, k, e, h => by
    rw [spawnedEmap] at h
    exact absurd h (by simp [alistLookup])
  | (i, ts) :: rest, n, k, e, h => by
    rw [spawnedEmap, alistLookup] at h
    by_cases hk : i = k
    · rw [if_pos hk] at h
      obtain rfl := Option.some_injective _ h
      refine ⟨Nat.le_refl _, ?_⟩
      rw [List.length_cons]
      have h2 : n + (rest.length + 1) = n + 1 + rest.length := by ring
      rw [h2]
      exact Nat.lt_of_lt_of_le (Nat.lt_succ_self n) (Nat.le_add_right _ _)
    · rw [if_neg hk] at h
      obtain ⟨h1, h2⟩ := spawnedEmap_lookup_bound rest (n + 1) k e h
      refine ⟨Nat.le_of_succ_le h1, ?_⟩
      rw [List.length_cons]
      have : n + 1 + rest.length = n + (rest.length + 1) := by
        rw [Nat.add_assoc, Nat.add_comm 1]
      rw [← this]
      exact h2

/-- Resolving a document key through the spawned entity map finds the
spawned tileset entity carrying that key's tileset. -/
theorem spawned_lookup_pair (root : Entity) :
    ∀ (pairs : List (SaveId × Tileset)) (n : Entity),
      (pairs.map Prod.fst).Nodup →
      ∀ (k : SaveId) (v : Tileset), (k, v) ∈ pairs →
        ∃ e, alistLookup (spawnedEmap n pairs) k = some e ∧
          (spawnedTilesets root n pairs).find? (fun t => t.eid = e) =
            some { eid := e, parent := root, ts := v }
  | [], _, _, k, v, hmem => absurd hmem (List.not_mem_nil (k, v))
  | (i, ts) :: rest, n, hnd, k, v, hmem => by
    rw [List.map_cons] at hnd
    have hndc := List.nodup_cons.1 hnd
    rw [spawnedEmap, spawnedTilesets]
    rcases List.mem_cons.1 hmem with heq | hmem
    · injection heq with h1 h2
      subst h1
      subst h2
      refine ⟨n, ?_, ?_⟩
      · rw [alistLookup, if_pos rfl]
      · rw [List.find?_cons_of_pos _ (by simp)]
    · have hki : k ≠ i := by
        intro h
        have hm : k ∈ rest.map Prod.fst := List.mem_map.2 ⟨(k, v), hmem, rfl⟩
        rw [h] at hm
        exact hndc.1 hm
      obtain ⟨e, he, hfind⟩ := spawned_lookup_pair root rest (n + 1) hndc.2 k v hmem
      have hbound := spawnedEmap_lookup_bound rest (n + 1) k e he
      refine ⟨e, ?_, ?_⟩
      · rw [alistLookup, if_neg (fun h => hki h.symm)]
        exact he
      · rw [List.find?_cons_of_neg _ ?hne]
        case hne =>
          simp only [decide_eq_true_eq]
          intro h
          have : n + 1 ≤ n := h ▸ hbound.1
          exact absurd this (Nat.not_succ_le_self n)
        exact hfind

/-- The tile entity spawned for document tile `td` at entity id `c`. -/
def spawnedTileEnt (emap : List (SaveId × Entity)) (td : MapTileDoc)
    (c : Entity) : TileEnt :=
  { eid := c, location := td.location,
    tileset_ref := (alistLookup emap td.tileset).getD 0,
    tile_id := td.tile_id, rotation := td.rotation }

/-- The placement data of a live placed tile: location, name of the
referenced tileset, tile id, rotation. -/
def placementProj (w : World) (t : TileEnt) :
    Location × Option String × TileId × TileRotation :=
  (t.location, (lookupTileset w t.tileset_ref).map Tileset.name,
   t.tile_id, t.rotation)

/-- The placements of a live layer, read the way `add_layers` reads them:
through `Children` and the tile-component query. -/
def layerPlacements (w : World) (l : LayerEnt) :
    List (Location × Option String × TileId × TileRotation) :=
  l.children.filterMap (fun c => (lookupTile w c).map (placementProj w))

/-- The placement data a document tile denotes in the decoded world. -/
def docPlacement (w2 : World) (emap : List (SaveId × Entity))
    (td : MapTileDoc) : Location × Option String × TileId × TileRotation :=
  (td.location,
   (lookupTileset w2 ((alistLookup emap td.tileset).getD 0)).map Tileset.name,
   td.tile_id, td.rotation)

theorem spawnedTileEnts_eid_bound (emap : List (SaveId × Entity)) :
    ∀ (docTiles : List MapTileDoc) (n : Entity),
      ∀ t ∈ spawnedTileEnts emap n docTiles,
        n ≤ t.eid ∧ t.eid < n + docTiles.length
  | [], _, t, ht => absurd ht (List.not_mem_nil t)
  | td :: rest, n, t, ht => by
    rw [spawnedTileEnts] at ht
    rcases List.mem_cons.1 ht with rfl | ht
    · refine ⟨Nat.le_refl _, ?_⟩
      show n < n + (rest.length + 1)
      have h2 : n + (rest.length + 1) = n + 1 + rest.length := by ring
      rw [h2]
      exact Nat.lt_of_lt_of_le (Nat.lt_succ_self n) (Nat.le_add_right _ _)
    · obtain ⟨h1, h2⟩ := spawnedTileEnts_eid_bound emap rest (n + 1) t ht
      refine ⟨Nat.le_of_succ_le h1, ?_⟩
      have h3 : n + (td :: rest).length = n + 1 + rest.length := by
        rw [List.length_cons]
        ring
      rw [h3]
      exact h2

theorem find_spawnedTileEnts (emap : List (SaveId × Entity)) :
    ∀ (docTiles : List MapTileDoc) (n : Entity) (j : Nat)
      (hj : j < docTiles.length),
      (spawnedTileEnts emap n docTiles).find? (fun t => t.eid = n + j) =
        some (spawnedTileEnt emap (docTiles.get ⟨j, hj⟩) (n + j))
  | [], n, j, hj => absurd hj (Nat.not_lt_zero j)
  | td :: rest, n, 0, hj => by
    rw [spawnedTileEnts, List.find?_cons_of_pos _ (by simp)]
    rfl
  | td :: rest, n, j + 1, hj => by
    rw [spawnedTileEnts, List.find?_cons_of_neg _ ?hne]
    case hne =>
      simp only [decide_eq_true_eq]
      intro h
      have : n + (j + 1) = n := h.symm
      have hlt : n < n + (j + 1) :=
        Nat.lt_of_lt_of_le (Nat.lt_succ_self n)
          (by rw [show n + (j + 1) = n + 1 + j from by ring]
              exact Nat.le_add_right _ _)
      rw [this] at hlt
      exact absurd hlt (Nat.lt_irrefl n)
    have hj' : j < rest.length := by
      rw [List.length_cons] at hj
      exact Nat.lt_of_succ_lt_succ hj
    have := find_spawnedTileEnts emap rest (n + 1) j hj'
    rw [show n + 1 + j = n + (j + 1) from by ring] at this
    rw [this]
    rfl

theorem filterMap_range_lookup (w2 : World) (emap : List (SaveId × Entity)) :
    ∀ (docTiles : List MapTileDoc) (s : Entity),
      (∀ (j : Nat) (hj : j < docTiles.length),
        lookupTile w2 (s + j) =
          some (spawnedTileEnt emap (docTiles.get ⟨j, hj⟩) (s + j))) →
      (List.range' s docTiles.length).filterMap
          (fun c => (lookupTile w2 c).map (placementProj w2)) =
        docTiles.map (docPlacement w2 emap)
  | [], s, _ => rfl
  | td :: rest, s, h => by
    rw [List.length_cons, List.range'_succ, List.filterMap_cons]
    have h0 := h 0 (Nat.succ_pos _)
    rw [Nat.add_zero] at h0
    rw [h0]
    show (placementProj w2 (spawnedTileEnt emap td s)) :: _ = _
    rw [List.map_cons]
    refine congrArg₂ List.cons rfl ?_
    refine filterMap_range_lookup w2 emap rest (s + 1) ?_
    intro j hj
    have := h (j + 1) (Nat.succ_lt_succ hj)
    rw [show s + (j + 1) = s + 1 + j from by ring] at this
    exact this

theorem spawned_layers_placements (root : Entity)
    (emap2 : List (SaveId × Entity)) :
    ∀ (docLayers : List MapLayerDoc) (n : Entity) (w2 : World)
      (pre : List TileEnt),
      w2.tiles = pre ++ spawnedLayersTiles emap2 n docLayers →
      (∀ t ∈ pre, t.eid < n) →
      (spawnedLayerEnts root n docLayers).map (layerPlacements w2) =
        docLayers.map (fun dl => dl.tiles.map (docPlacement w2 emap2))
  | [], n, w2, pre, _, _ => rfl
  | dl :: rest, n, w2, pre, htiles, hpre => by
    rw [spawnedLayerEnts, List.map_cons, List.map_cons]
    refine congrArg₂ List.cons ?_ ?_
    · show (List.range' (n + 1) dl.tiles.length).filterMap
          (fun c => (lookupTile w2 c).map (placementProj w2)) = _
      refine filterMap_range_lookup w2 emap2 dl.tiles (n + 1) ?_
      intro j hj
      unfold lookupTile
      rw [htiles, spawnedLayersTiles, List.find?_append, List.find?_append]
      have hprenone : pre.find? (fun t => t.eid = n + 1 + j) = Option.none := by
        rw [List.find?_eq_none]
        intro t ht
        simp only [decide_eq_true_eq]
        intro heq
        have h1 : t.eid < n := hpre t ht
        have h2 : n < n + 1 + j :=
          Nat.lt_of_lt_of_le (Nat.lt_succ_self n) (Nat.le_add_right _ _)
        rw [heq] at h1
        exact absurd (Nat.lt_trans h1 h2) (Nat.lt_irrefl _)
      rw [hprenone, Option.none_or,
        find_spawnedTileEnts emap2 dl.tiles (n + 1) j hj, Option.or_some]
    · refine spawned_layers_placements root emap2 rest (n + 1 + dl.tiles.length)
        w2 (pre ++ spawnedTileEnts emap2 (n + 1) dl.tiles) ?_ ?_
      · rw [htiles, spawnedLayersTiles, List.append_assoc]
      · intro t ht
        rcases List.mem_append.1 ht with ht | ht
        · exact Nat.lt_of_lt_of_le (hpre t ht)
            (Nat.le_trans (Nat.le_succ n) (Nat.le_add_right _ _))
        · have := (spawnedTileEnts_eid_bound emap2 dl.tiles (n + 1) t ht).2
          exact this

/-- The tileset component of entity `e`, with a default for proofs. -/
def tsComponentOf (w : World) (e : Entity) : Tileset :=
  (lookupTileset w e).getD (Tileset.new "")

/-- The world after the batch id assignment of `try_new`. -/
def encWorld (w : World) (news : List (Entity × SaveId)) : World :=
  { w with save_ids := w.save_ids ++ news }

/-- The save-id each tileset entity ends up with after the batch
assignment. -/
def encId (w : World) (news : List (Entity × SaveId)) (e : Entity) : SaveId :=
  (alistLookup (w.save_ids ++ news) e).getD 0

/-- The document `try_new` produces. -/
def encDoc (w : World) (root : Entity) (layout : HexLayout)
    (news emap1 : List (Entity × SaveId)) : MapFormat :=
  { version := MAP_FORMAT_VERSION
    layout := layout
    tilesets := btreeOfList ((rootTilesets w root).map
      (fun e => (encId w news e, tsComponentOf w e))) []
    layers := (w.layers.filter (fun l => l.parent = root)).map
      (mkMapLayerDoc (encWorld w news) emap1)
    entity_map := emap1 }

theorem c2_encode (w : World) (root : Entity) (layout : HexLayout)
    (hmap : alistLookup w.maps root = some layout)
    (hnd_ts : (w.tilesets.map TilesetEnt.eid).Nodup)
    (hent : ∀ t ∈ w.tilesets, t.parent = root → t.eid ∈ w.entities)
    (href : ∀ l ∈ w.layers, l.parent = root → ∀ c ∈ l.children, ∀ t,
      lookupTile w c = some t → t.tileset_ref ∈ rootTilesets w root) :
    ∃ news emap1,
      MapFormat.try_new w root =
        Except.ok (encWorld w news, encDoc w root layout news emap1) ∧
      news.map Prod.snd = List.range' w.save_id_next news.length ∧
      (∀ e ∈ rootTilesets w root,
        alistLookup emap1 e = some (encId w news e)) ∧
      (∀ e ∈ rootTilesets w root,
        (alistLookup (w.save_ids ++ news) e).isSome) := by
  have hes : ∀ e ∈ rootTilesets w root, e ∈ w.entities := by
    intro e he
    unfold rootTilesets at he
    obtain ⟨t, ht, rfl⟩ := List.mem_map.1 he
    have hmem := List.mem_filter.1 ht
    exact hent t hmem.1 (by simpa using hmem.2)
  obtain ⟨news, emap1, hrun, hrange, hfresh, hkeys, hsome, hemap⟩ :=
    assignSaveIdsGo_spec (rootTilesets w root) w w.save_id_next [] hes
  have hemap_lookup : ∀ e ∈ rootTilesets w root,
      alistLookup emap1 e = some (encId w news e) := by
    intro e he
    rw [hemap, alistLookup_foldl_insert_fun, if_pos he]
    rfl
  refine ⟨news, emap1, ?_, hrange, hemap_lookup, hsome⟩
  have hts_comp : ∀ e ∈ rootTilesets w root,
      lookupTileset (encWorld w news) e = some (tsComponentOf w e) := by
    intro e he
    unfold rootTilesets at he
    obtain ⟨t, ht, rfl⟩ := List.mem_map.1 he
    have hmem := List.mem_filter.1 ht
    have hl := lookupTileset_of_mem w hnd_ts t hmem.1
    show lookupTileset w t.eid = some (tsComponentOf w t.eid)
    rw [hl]
    unfold tsComponentOf
    rw [hl]
    rfl
  have hat : MapFormat.add_tilesets
      { version := MAP_FORMAT_VERSION, layout := layout, tilesets := [],
        layers := [], entity_map := [] } w root =
      Except.ok (encWorld w news,
        { version := MAP_FORMAT_VERSION, layout := layout,
          tilesets := btreeOfList ((rootTilesets w root).map
            (fun e => (encId w news e, tsComponentOf w e))) [],
          layers := [], entity_map := emap1 }) := by
    unfold MapFormat.add_tilesets
    show (w.assign_save_ids (rootTilesets w root)).bind _ = _
    rw [show w.assign_save_ids (rootTilesets w root) =
      Except.ok (encWorld w news, emap1) from hrun]
    show (List.foldlM (addTilesetStep (encWorld w news) emap1) _
      (rootTilesets w root)).bind _ = _
    rw [addTilesets_fold (encWorld w news) emap1
      (encId w news) (tsComponentOf w) (rootTilesets w root) _
      (fun e he => ⟨hemap_lookup e he, hts_comp e he⟩)]
    rfl
  have hlayer_ok : ∀ l ∈ w.layers.filter (fun l => l.parent = root),
      encodeLayer (encWorld w news) emap1 l =
        Except.ok (mkMapLayerDoc (encWorld w news) emap1 l) := by
    intro l hl
    have hmem := List.mem_filter.1 hl
    refine encodeLayer_spec _ emap1 l ?_
    intro c hc t ht
    have hrefc := href l hmem.1 (by simpa using hmem.2) c hc t ht
    rw [hemap_lookup _ hrefc]
    rfl
  unfold MapFormat.try_new
  rw [hmap]
  show (MapFormat.add_tilesets _ w root).bind _ = _
  rw [hat]
  show (MapFormat.add_layers _ (encWorld w news) root).bind _ = _
  have hal : MapFormat.add_layers
      { version := MAP_FORMAT_VERSION, layout := layout,
        tilesets := btreeOfList ((rootTilesets w root).map
          (fun e => (encId w news e, tsComponentOf w e))) [],
        layers := [], entity_map := emap1 } (encWorld w news) root =
      Except.ok (encDoc w root layout news emap1) := by
    unfold MapFormat.add_layers
    show ((w.layers.filter (fun l => l.parent = root)).mapM
      (encodeLayer (encWorld w news) emap1)).bind _ = _
    rw [mapM_except_ok (encodeLayer (encWorld w news) emap1)
      (mkMapLayerDoc (encWorld w news) emap1) _ hlayer_ok]
    rfl
  rw [hal]
  rfl

/-- The batch assignment appends ids that cannot collide with already
assigned ones, so the extended `SaveId` table has duplicate-free values. -/
theorem enc_values_nodup (w : World) (news : List (Entity × SaveId))
    (hnd_sid : (w.save_ids.map Prod.snd).Nodup)
    (hrange : news.map Prod.snd = List.range' w.save_id_next news.length) :
    ((w.save_ids ++ news).map Prod.snd).Nodup := by
  rw [List.map_append, List.nodup_append]
  refine ⟨hnd_sid, ?_, ?_⟩
  · rw [hrange]
    exact List.nodup_range' _ _
  · intro a ha hb
    obtain ⟨p, hp, rfl⟩ := List.mem_map.1 ha
    have h1 := save_ids_lt_next w p hp
    rw [hrange] at hb
    obtain ⟨i, _, heq⟩ := List.mem_range'.1 hb
    rw [heq] at h1
    exact absurd (Nat.lt_of_le_of_lt (Nat.le_add_right _ _) h1)
      (Nat.lt_irrefl _)

/-- Looking up the `Tileset` component of a tileset child of `root`. -/
theorem lookupTileset_root (w : World) (root : Entity)
    (hnd_ts : (w.tilesets.map TilesetEnt.eid).Nodup) :
    ∀ e ∈ rootTilesets w root, lookupTileset w e = some (tsComponentOf w e) := by
  intro e he
  unfold rootTilesets at he
  obtain ⟨t, ht, rfl⟩ := List.mem_map.1 he
  have hl := lookupTileset_of_mem w hnd_ts t (List.mem_filter.1 ht).1
  show lookupTileset w t.eid = some (tsComponentOf w t.eid)
  rw [hl]
  unfold tsComponentOf
  rw [hl]
  rfl

/-- The world `try_spawn` has produced right after restoring the document
tilesets into a fresh world under root `0`. -/
def decTsWorld (M : MapFormat) : World :=
  { next_entity := 1 + M.tilesets.length,
    entities := [0] ++ List.range' 1 M.tilesets.length,
    maps := [], save_ids := [],
    tilesets := spawnedTilesets 0 1 M.tilesets,
    layers := [], tiles := [] }

/-- The final world a successful `try_spawn` of `M` into a fresh world
produces. -/
def decWorld (M : MapFormat) : World :=
  { next_entity := 1 + M.tilesets.length + layersEntCount M.layers,
    entities := [0] ++ (List.range' 1 M.tilesets.length ++
      List.range' (1 + M.tilesets.length) (layersEntCount M.layers)),
    maps := [(0, M.layout)],
    save_ids := [],
    tilesets := spawnedTilesets 0 1 M.tilesets,
    layers := spawnedLayerEnts 0 (1 + M.tilesets.length) M.layers,
    tiles := spawnedLayersTiles (spawnedEmap 1 M.tilesets)
      (1 + M.tilesets.length) M.layers }

/-- C2: encode (`MapFormat::try_new`) followed by decode/instantiate
(`MapFormat::try_spawn`) into a fresh root reproduces the live graph: the
decoded root has the same multiset of `Tileset` components (hence the same
names, tiles and `tile_order` per tileset), the same layer names in order,
and per layer the same list of `(location, tileset-name, tile_id,
rotation)` placements. -/
theorem map_roundtrip (w : World) (root : Entity) (layout : HexLayout)
    (hmap : alistLookup w.maps root = some layout)
    (hnd_ts : (w.tilesets.map TilesetEnt.eid).Nodup)
    (hnd_sid : (w.save_ids.map Prod.snd).Nodup)
    (hent : ∀ t ∈ w.tilesets, t.parent = root → t.eid ∈ w.entities)
    (href : ∀ l ∈ w.layers, l.parent = root → ∀ c ∈ l.children, ∀ t,
      lookupTile w c = some t → t.tileset_ref ∈ rootTilesets w root) :
    ∃ w1 m w2,
      MapFormat.try_new w root = Except.ok (w1, m) ∧
      m.try_spawn freshWorld 0 = SpawnOutcome.ok w2 ∧
      ((w2.tilesets.filter (fun t => t.parent = 0)).map TilesetEnt.ts).Perm
        ((w.tilesets.filter (fun t => t.parent = root)).map TilesetEnt.ts) ∧
      (w2.layers.filter (fun l => l.parent = 0)).map LayerEnt.name =
        (w.layers.filter (fun l => l.parent = root)).map LayerEnt.name ∧
      (w2.layers.filter (fun l => l.parent = 0)).map (layerPlacements w2) =
        (w.layers.filter (fun l => l.parent = root)).map (layerPlacements w) := by
  obtain ⟨news, emap1, hnew, hrange, hemap, hsome⟩ :=
    c2_encode w root layout hmap hnd_ts hent href
  set M := encDoc w root layout news emap1 with hM
  have hvnd : ((w.save_ids ++ news).map Prod.snd).Nodup :=
    enc_values_nodup w news hnd_sid hrange
  have hndroot : (rootTilesets w root).Nodup := by
    unfold rootTilesets
    exact List.Nodup.sublist
      ((List.filter_sublist w.tilesets).map (fun t => t.eid)) hnd_ts
  have hinj : ∀ x ∈ rootTilesets w root, ∀ y ∈ rootTilesets w root,
      encId w news x = encId w news y → x = y := by
    intro x hx y hy heq
    obtain ⟨vx, hvx⟩ := Option.isSome_iff_exists.1 (hsome x hx)
    obtain ⟨vy, hvy⟩ := Option.isSome_iff_exists.1 (hsome y hy)
    have hx' : encId w news x = vx := by
      unfold encId
      rw [hvx]
      rfl
    have hy' : encId w news y = vy := by
      unfold encId
      rw [hvy]
      rfl
    rw [hx', hy'] at heq
    rw [heq] at hvx
    exact alistLookup_inj_of_values_nodup _ hvnd x y vy hvx hvy
  have hndkeys : ((rootTilesets w root).map (encId w news)).Nodup :=
    List.Nodup.map_on hinj hndroot
  have hpairs_fst : (((rootTilesets w root).map
      (fun e => (encId w news e, tsComponentOf w e))).map Prod.fst) =
      (rootTilesets w root).map (encId w news) := by
    rw [List.map_map]
    rfl
  have hpermM : M.tilesets.Perm ((rootTilesets w root).map
      (fun e => (encId w news e, tsComponentOf w e))) := by
    have h := btree_fold_perm ((rootTilesets w root).map
      (fun e => (encId w news e, tsComponentOf w e))) [] ?hnd
    case hnd =>
      rw [List.nil_append, hpairs_fst]
      exact hndkeys
    rw [List.nil_append] at h
    exact h
  have hndM : (M.tilesets.map Prod.fst).Nodup := by
    refine ((hpermM.map Prod.fst).nodup_iff).2 ?_
    rw [hpairs_fst]
    exact hndkeys
  have hspawnT : spawnDocTilesets 0 freshWorld [] M.tilesets =
      (decTsWorld M, spawnedEmap 1 M.tilesets) :=
    spawnDocTilesets_spec M.tilesets freshWorld [] 0 hndM (fun k _ => rfl)
  have hkey : ∀ e ∈ rootTilesets w root,
      ∃ e2, alistLookup (spawnedEmap 1 M.tilesets) (encId w news e) = some e2 ∧
        (spawnedTilesets 0 1 M.tilesets).find? (fun t => t.eid = e2) =
          some { eid := e2, parent := 0, ts := tsComponentOf w e } := by
    intro e he
    have hmem : (encId w news e, tsComponentOf w e) ∈ M.tilesets :=
      hpermM.mem_iff.2 (List.mem_map.2 ⟨e, he, rfl⟩)
    exact spawned_lookup_pair 0 M.tilesets 1 hndM _ _ hmem
  have hres : ∀ dl ∈ M.layers, ∀ td ∈ dl.tiles,
      (alistLookup (spawnedEmap 1 M.tilesets) td.tileset).isSome := by
    intro dl hdl td htd
    replace hdl : dl ∈ (w.layers.filter (fun l => l.parent = root)).map
      (mkMapLayerDoc (encWorld w news) emap1) := hdl
    obtain ⟨l, hl, rfl⟩ := List.mem_map.1 hdl
    replace htd : td ∈ l.children.filterMap (fun c =>
      (lookupTile (encWorld w news) c).map (fun t => mkMapTileDoc emap1 t)) := htd
    obtain ⟨c, hc, hcc⟩ := List.mem_filterMap.1 htd
    cases hlt : lookupTile (encWorld w news) c with
    | none =>
      rw [hlt] at hcc
      exact Option.noConfusion hcc
    | some t =>
      rw [hlt] at hcc
      obtain rfl := Option.some_injective _ hcc
      have hlt' : lookupTile w c = some t := hlt
      have hmemroot := href l (List.mem_filter.1 hl).1
        (by simpa using (List.mem_filter.1 hl).2) c hc t hlt'
      have htd2 : (mkMapTileDoc emap1 t).tileset = encId w news t.tileset_ref := by
        show (alistLookup emap1 t.tileset_ref).getD 0 = _
        rw [hemap _ hmemroot]
        rfl
      rw [htd2]
      obtain ⟨e2, he2, _⟩ := hkey t.tileset_ref hmemroot
      rw [he2]
      rfl
  have hspawnL := spawnDocLayers_spec 0 (spawnedEmap 1 M.tilesets) M.layers
    (decTsWorld M) hres (fun l hl => absurd hl (List.not_mem_nil l))
  have hts : M.try_spawn freshWorld 0 = SpawnOutcome.ok (decWorld M) := by
    unfold MapFormat.try_spawn
    rw [if_neg (show ¬ M.version ≠ MAP_FORMAT_VERSION from fun h => h rfl)]
    show (match spawnDocLayers 0 (spawnDocTilesets 0 freshWorld [] M.tilesets).2
        (spawnDocTilesets 0 freshWorld [] M.tilesets).1 M.layers with
      | Option.none => SpawnOutcome.panicked
      | some w2 => SpawnOutcome.ok
          { w2 with maps := alistInsert w2.maps 0 M.layout }) = _
    rw [hspawnT]
    show (match spawnDocLayers 0 (spawnedEmap 1 M.tilesets) (decTsWorld M)
        M.layers with
      | Option.none => SpawnOutcome.panicked
      | some w2 => SpawnOutcome.ok
          { w2 with maps := alistInsert w2.maps 0 M.layout }) = _
    rw [hspawnL]
    rfl
  have hAfilter : (decWorld M).tilesets.filter (fun t => t.parent = 0) =
      (decWorld M).tilesets := by
    rw [List.filter_eq_self]
    intro t ht
    simpa using spawnedTilesets_parent 0 M.tilesets 1 t ht
  have hLfilter : (decWorld M).layers.filter (fun l => l.parent = 0) =
      (decWorld M).layers := by
    rw [List.filter_eq_self]
    intro l hl
    simpa using spawnedLayerEnts_parent 0 M.layers (1 + M.tilesets.length) l hl
  have heqA : (w.tilesets.filter (fun t => t.parent = root)).map
      (fun t => tsComponentOf w t.eid) =
      (w.tilesets.filter (fun t => t.parent = root)).map TilesetEnt.ts := by
    refine List.map_congr_left ?_
    intro t ht
    have hl := lookupTileset_of_mem w hnd_ts t (List.mem_filter.1 ht).1
    show tsComponentOf w t.eid = t.ts
    unfold tsComponentOf
    rw [hl]
    rfl
  have hA : (((decWorld M).tilesets.filter (fun t => t.parent = 0)).map
      TilesetEnt.ts).Perm
      ((w.tilesets.filter (fun t => t.parent = root)).map TilesetEnt.ts) := by
    rw [hAfilter]
    show ((spawnedTilesets 0 1 M.tilesets).map TilesetEnt.ts).Perm _
    rw [spawnedTilesets_map_ts]
    have h1 := hpermM.map Prod.snd
    rw [List.map_map] at h1
    refine h1.trans (List.Perm.of_eq ?_)
    show ((w.tilesets.filter (fun t => t.parent = root)).map
      (fun t => t.eid)).map
      (Prod.snd ∘ fun e => (encId w news e, tsComponentOf w e)) = _
    rw [List.map_map]
    exact heqA
  have hB : ((decWorld M).layers.filter (fun l => l.parent = 0)).map
      LayerEnt.name =
      (w.layers.filter (fun l => l.parent = root)).map LayerEnt.name := by
    rw [hLfilter]
    show ((spawnedLayerEnts 0 (1 + M.tilesets.length) M.layers).map
      LayerEnt.name) = _
    rw [spawnedLayerEnts_map_name]
    show (((w.layers.filter (fun l => l.parent = root)).map
      (mkMapLayerDoc (encWorld w news) emap1)).map MapLayerDoc.name) = _
    rw [List.map_map]
    rfl
  have hC : ((decWorld M).layers.filter (fun l => l.parent = 0)).map
      (layerPlacements (decWorld M)) =
      (w.layers.filter (fun l => l.parent = root)).map (layerPlacements w) := by
    rw [hLfilter]
    show ((spawnedLayerEnts 0 (1 + M.tilesets.length) M.layers).map
      (layerPlacements (decWorld M))) = _
    rw [spawned_layers_placements 0 (spawnedEmap 1 M.tilesets) M.layers
      (1 + M.tilesets.length) (decWorld M) [] rfl
      (fun t ht => absurd ht (List.not_mem_nil t))]
    show ((w.layers.filter (fun l => l.parent = root)).map
      (mkMapLayerDoc (encWorld w news) emap1)).map
        (fun dl => dl.tiles.map
          (docPlacement (decWorld M) (spawnedEmap 1 M.tilesets))) = _
    rw [List.map_map]
    refine List.map_congr_left ?_
    intro l hl
    show (mkMapLayerDoc (encWorld w news) emap1 l).tiles.map
      (docPlacement (decWorld M) (spawnedEmap 1 M.tilesets)) =
      layerPlacements w l
    show (l.children.filterMap (fun c => (lookupTile (encWorld w news) c).map
      (fun t => mkMapTileDoc emap1 t))).map
      (docPlacement (decWorld M) (spawnedEmap 1 M.tilesets)) = _
    rw [List.map_filterMap]
    unfold layerPlacements
    refine List.filterMap_congr ?_
    intro c hc
    show ((lookupTile (encWorld w news) c).map
      (fun t => mkMapTileDoc emap1 t)).map
      (docPlacement (decWorld M) (spawnedEmap 1 M.tilesets)) =
      (lookupTile w c).map (placementProj w)
    cases hlt : lookupTile w c with
    | none =>
      have hlt' : lookupTile (encWorld w news) c = Option.none := hlt
      rw [hlt']
      rfl
    | some t =>
      have hlt' : lookupTile (encWorld w news) c = some t := hlt
      rw [hlt']
      show some (docPlacement (decWorld M) (spawnedEmap 1 M.tilesets)
        (mkMapTileDoc emap1 t)) = some (placementProj w t)
      refine congrArg some ?_
      have hmemroot := href l (List.mem_filter.1 hl).1
        (by simpa using (List.mem_filter.1 hl).2) c hc t hlt
      have htd2 : (mkMapTileDoc emap1 t).tileset = encId w news t.tileset_ref := by
        show (alistLookup emap1 t.tileset_ref).getD 0 = _
        rw [hemap _ hmemroot]
        rfl
      obtain ⟨e2, he2, hfind⟩ := hkey t.tileset_ref hmemroot
      have hlook2 : lookupTileset (decWorld M) e2 =
          some (tsComponentOf w t.tileset_ref) := by
        unfold lookupTileset
        show ((spawnedTilesets 0 1 M.tilesets).find?
          (fun u => u.eid = e2)).map (fun u => u.ts) = _
        rw [hfind]
        rfl
      have hlookw : lookupTileset w t.tileset_ref =
          some (tsComponentOf w t.tileset_ref) :=
        lookupTileset_root w root hnd_ts t.tileset_ref hmemroot
      unfold docPlacement placementProj
      rw [htd2, he2]
      show (t.location, (lookupTileset (decWorld M) e2).map Tileset.name,
        t.tile_id, t.rotation) = _
      rw [hlook2, hlookw]
  exact ⟨encWorld w news, M, decWorld M, hnew, hts, hA, hB, hC⟩

/-- A concrete live map for the round-trip witness: root `10` with one
tileset child, one layer child, and one placed tile. -/
def exC2Tile : TileEnt :=
  { eid := 13, location := { x := 1, y := -2 }, tileset_ref := 11,
    tile_id := 0, rotation := TileRotation.clockwise60 }

def exC2World : World :=
  { next_entity := 14, entities := [10, 11, 12, 13],
    maps := [(10, HexLayout.default)], save_ids := [],
    tilesets := [{ eid := 11, parent := 10, ts := exTilesetPine }],
    layers := [{ eid := 12, parent := 10, name := "ground", tiles := [],
                 children := [13] }],
    tiles := [exC2Tile] }

/-- C2 witness: the round trip applied to the concrete one-tileset,
one-layer, one-tile world. -/
theorem map_roundtrip_witness :
    ∃ w1 m w2,
      MapFormat.try_new exC2World 10 = Except.ok (w1, m) ∧
      m.try_spawn freshWorld 0 = SpawnOutcome.ok w2 ∧
      ((w2.tilesets.filter (fun t => t.parent = 0)).map TilesetEnt.ts).Perm
        ((exC2World.tilesets.filter (fun t => t.parent = 10)).map
          TilesetEnt.ts) ∧
      (w2.layers.filter (fun l => l.parent = 0)).map LayerEnt.name =
        (exC2World.layers.filter (fun l => l.parent = 10)).map LayerEnt.name ∧
      (w2.layers.filter (fun l => l.parent = 0)).map (layerPlacements w2) =
        (exC2World.layers.filter (fun l => l.parent = 10)).map
          (layerPlacements exC2World) := by
  refine map_roundtrip exC2World 10 HexLayout.default rfl (by decide)
    (by decide) (by decide) ?_
  intro l hl hp c hc t ht
  obtain rfl := List.mem_singleton.1 hl
  obtain rfl := List.mem_singleton.1 hc
  have hlook : lookupTile exC2World 13 = some exC2Tile := rfl
  rw [hlook] at ht
  obtain rfl := Option.some_injective _ ht
  decide
